import Mathlib

/-!
Shallow embedding of `pkg/modules/libreoffice/routes.go` (the only source
file of the repository): the two route handlers `convertRoute` (the PDF
pipeline) and `convertRouteDocx` (the DOCX pipeline).

External collaborators (the LibreOffice `Uno` converter, the
`gotenberg.PdfEngine`, the request context's path allocator, renamer,
metadata unmarshaller and output registration) are modelled as an
environment `Env` of oracle functions deciding the outcome of each
external call.  Each run returns the ordered trace of external calls it
made (an `Event` list) together with either the final output-path list
(the paths handed to `ctx.AddOutputPaths`) or the wrapped error the
handler returns, mirroring Go's early-return control flow.

`ctx.GeneratePath(ext)` issues fresh request-scoped paths; it is modelled
by a counter `n` threaded through the run, the n-th allocated path being
`genPath n ext`.  `map[string]interface{}` metadata values are modelled
as string key/value pairs; the handlers only test the mapping for
emptiness and pass it through opaquely, so the value representation is
irrelevant.
-/

deriving instance DecidableEq for Except

namespace Routes

/-- `gotenberg.PdfFormats`: the pair of requested PDF standards
(`PdfA` string, `PdfUa` bool), from routes.go lines 64-67. -/
structure PdfFormats where
  pdfA : String
  pdfUa : Bool
deriving DecidableEq

/-- The Go zero value `gotenberg.PdfFormats{}` (routes.go line 122). -/
def zeroValued : PdfFormats := { pdfA := "", pdfUa := false }

/-- `libreofficeapi.Options` as populated at routes.go lines 73-82. -/
structure Options where
  landscape : Bool
  pageRanges : String
  exportFormFields : Bool
  singlePageSheets : Bool
  pdfFormats : PdfFormats
deriving DecidableEq

/-- The error vocabulary of the LibreOffice converter that the PDF
handler distinguishes with `errors.Is` (routes.go lines 86, 96); any
other failure is `other` with an opaque message. -/
inductive UnoError where
  | invalidPdfFormats
  | malformedPageRanges
  | other (msg : String)
deriving DecidableEq

/-- JSON-object metadata (`map[string]interface{}`), values opaque. -/
abbrev Metadata := List (String × String)

/-- The errors the two handlers can return, one constructor per
`return`-with-error site in routes.go.  The two `BadRequest`
constructors carry the context that the corresponding
`api.NewSentinelHttpError` message embeds (the offending `pdfFormats`
value, resp. the literal `nativePageRanges` value). -/
inductive HandlerError where
  | validateFormData
  | invalidPdfFormatsBadRequest (formats : PdfFormats)
  | malformedPageRangesBadRequest (ranges : String)
  | convertToPdf (msg : String)
  | mergePdfs
  | convertPdf
  | writeMetadata
  | renameOutputPath
  | addOutputPaths
  | convertToDocx
deriving DecidableEq

/-- The HTTP status a `HandlerError` is pinned to by an
`api.NewSentinelHttpError` wrapper, when any (routes.go lines 89-90, 99,
207-208); `none` for plain wrapped errors left to default handling. -/
def HandlerError.httpStatus : HandlerError → Option Nat
  | .invalidPdfFormatsBadRequest _ => some 400
  | .malformedPageRangesBadRequest _ => some 400
  | .convertToDocx => some 500
  | _ => none

/-- A handler error is a client error when it is surfaced as a bad
request (HTTP 400). -/
def HandlerError.isClientError (he : HandlerError) : Bool :=
  he.httpStatus = some 400

/-- One external call made by a handler, in program order. -/
inductive Event where
  | pdfCall (input output : String) (options : Options)
  | docxCall (input output : String)
  | mergeCall (inputs : List String) (output : String)
  | engineConvertCall (formats : PdfFormats) (input output : String)
  | writeMetadataCall (metadata : Metadata) (output : String)
  | renameCall (oldPath newPath : String)
  | addOutputPathsCall (paths : List String)
deriving DecidableEq

def Event.isPdfCall : Event → Bool
  | .pdfCall _ _ _ => true
  | _ => false

def Event.isMergeCall : Event → Bool
  | .mergeCall _ _ => true
  | _ => false

def Event.isEngineConvertCall : Event → Bool
  | .engineConvertCall _ _ _ => true
  | _ => false

def Event.isWriteMetadataCall : Event → Bool
  | .writeMetadataCall _ _ => true
  | _ => false

def Event.isRenameCall : Event → Bool
  | .renameCall _ _ => true
  | _ => false

def Event.isAddOutputPathsCall : Event → Bool
  | .addOutputPathsCall _ => true
  | _ => false

/-- A converter call that performs native PDF-standard normalization:
its options embed a non-zero `PdfFormats` (routes.go lines 80-82). -/
def Event.isNativeNormalizingPdfCall : Event → Bool
  | .pdfCall _ _ opts => decide (opts.pdfFormats ≠ zeroValued)
  | _ => false

/-- Outcomes of the external collaborators, one oracle per external
call the handlers make.  `unmarshalMetadata` models
`json.Unmarshal` into `map[string]interface{}` (routes.go lines 50-58). -/
structure Env where
  pdfResult : String → String → Options → Except UnoError Unit
  docxResult : String → String → Except UnoError Unit
  mergeResult : List String → String → Except String Unit
  convertResult : PdfFormats → String → String → Except String Unit
  writeMetadataResult : Metadata → String → Except String Unit
  renameResult : String → String → Except String Unit
  addOutputPathsResult : List String → Except String Unit
  unmarshalMetadata : String → Except String Metadata

/-- The validated form fields of a `/forms/libreoffice/convert` request
(routes.go lines 27-38); `metadataRaw` is the raw string value of the
`metadata` form field (empty when absent). -/
structure PdfRequest where
  inputPaths : List String
  landscape : Bool
  nativePageRanges : String
  exportFormFields : Bool
  singlePageSheets : Bool
  pdfa : String
  pdfua : Bool
  nativePdfFormats : Bool
  merge : Bool
  metadataRaw : String

/-- The n-th path issued by `ctx.GeneratePath(ext)` in a run. -/
def genPath (n : Nat) (ext : String) : String :=
  "alloc-" ++ toString n ++ ext

/-- `pdfFormats` as built at routes.go lines 64-67. -/
def PdfRequest.pdfFormats (req : PdfRequest) : PdfFormats :=
  { pdfA := req.pdfa, pdfUa := req.pdfua }

/-- The per-file converter options (routes.go lines 73-82): the request
`PdfFormats` are embedded exactly when `nativePdfFormats` is set,
otherwise the zero value stays. -/
def PdfRequest.options (req : PdfRequest) : Options :=
  { landscape := req.landscape
    pageRanges := req.nativePageRanges
    exportFormFields := req.exportFormFields
    singlePageSheets := req.singlePageSheets
    pdfFormats := if req.nativePdfFormats then req.pdfFormats else zeroValued }

/-- Form validation (routes.go lines 40-62): `MandatoryPaths` demands at
least one input file, and a present, non-empty `metadata` field must
unmarshal as JSON; any failure surfaces as the single wrapped
`validate form data` error before any stage runs. -/
def validateForm (env : Env) (req : PdfRequest) : Except HandlerError Metadata :=
  if req.inputPaths.isEmpty then .error .validateFormData
  else if 0 < req.metadataRaw.length then
    match env.unmarshalMetadata req.metadataRaw with
    | .error _ => .error .validateFormData
    | .ok md => .ok md
  else .ok []

/-- How a converter failure is classified at routes.go lines 85-103:
`ErrInvalidPdfFormats` → bad request naming `pdfFormats`;
`ErrMalformedPageRanges` → bad request echoing `options.PageRanges`
(the literal `nativePageRanges` value); anything else → the generic
wrapped conversion error. -/
def mapUnoError (e : UnoError) (formats : PdfFormats) (ranges : String) : HandlerError :=
  match e with
  | .invalidPdfFormats => .invalidPdfFormatsBadRequest formats
  | .malformedPageRanges => .malformedPageRangesBadRequest ranges
  | .other msg => .convertToPdf msg

/-- The partial outcome of a (prefix of a) handler run: the trace of
external calls made so far, and either a value or the error returned. -/
abbrev Run (α : Type) : Type := List Event × Except HandlerError α

/-- Sequencing with Go's early return: on error the rest of the handler
never runs and contributes no events. -/
def sbind {α β : Type} (x : Run α) (f : α → Run β) : Run β :=
  match x.2 with
  | .error e => (x.1, .error e)
  | .ok a => (x.1 ++ (f a).1, (f a).2)

/-- Stage 1 of the PDF pipeline (routes.go lines 70-105): for each input
in order, allocate a fresh `.pdf` path and invoke `libreOffice.Pdf`;
the first failure classifies per `mapUnoError` and aborts. -/
def convertLoop (env : Env) (opts : Options) (formats : PdfFormats) (ranges : String) :
    List String → Nat → Run (List String × Nat)
  | [], n => ([], .ok ([], n))
  | input :: rest, n =>
    let out := genPath n ".pdf"
    let ev := Event.pdfCall input out opts
    match env.pdfResult input out opts with
    | .error e => ([ev], .error (mapUnoError e formats ranges))
    | .ok _ =>
      let r := convertLoop env opts formats ranges rest (n + 1)
      (ev :: r.1,
        match r.2 with
        | .error he => .error he
        | .ok (outs, m) => .ok (out :: outs, m))

/-- Stage 2 (routes.go lines 107-118): when there are at least two
current outputs and merge was requested, merge them all into one fresh
path; the output set collapses to that single file. -/
def mergeStage (env : Env) (mg : Bool) (outs : List String) (n : Nat) :
    Run (List String × Nat) :=
  if 1 < outs.length ∧ mg = true then
    let out := genPath n ".pdf"
    let ev := Event.mergeCall outs out
    match env.mergeResult outs out with
    | .error _ => ([ev], .error .mergePdfs)
    | .ok _ => ([ev], .ok ([out], n + 1))
  else ([], .ok (outs, n))

/-- The per-file loop of stage 3 (routes.go lines 124-134): each current
output is converted by `engine.Convert` into a fresh path. -/
def normalizeLoop (env : Env) (formats : PdfFormats) :
    List String → Nat → Run (List String × Nat)
  | [], n => ([], .ok ([], n))
  | inPath :: rest, n =>
    let out := genPath n ".pdf"
    let ev := Event.engineConvertCall formats inPath out
    match env.convertResult formats inPath out with
    | .error _ => ([ev], .error .convertPdf)
    | .ok _ =>
      let r := normalizeLoop env formats rest (n + 1)
      (ev :: r.1,
        match r.2 with
        | .error he => .error he
        | .ok (outs, m) => .ok (out :: outs, m))

/-- Stage 3 (routes.go lines 120-138): runs exactly when
`nativePdfFormats` is unset and the requested `PdfFormats` is not the
zero value. -/
def normalizeStage (env : Env) (native : Bool) (formats : PdfFormats)
    (outs : List String) (n : Nat) : Run (List String × Nat) :=
  if native = false ∧ formats ≠ zeroValued then normalizeLoop env formats outs n
  else ([], .ok (outs, n))

/-- The per-file loop of stage 4 (routes.go lines 142-148): metadata is
written to each current output in place; the output set is unchanged. -/
def metadataLoop (env : Env) (md : Metadata) : List String → Run Unit
  | [] => ([], .ok ())
  | outPath :: rest =>
    let ev := Event.writeMetadataCall md outPath
    match env.writeMetadataResult md outPath with
    | .error _ => ([ev], .error .writeMetadata)
    | .ok _ =>
      let r := metadataLoop env md rest
      (ev :: r.1, r.2)

/-- Stage 4 (routes.go lines 140-148): runs exactly when the metadata
mapping is non-empty. -/
def metadataStage (env : Env) (md : Metadata) (outs : List String) : Run Unit :=
  if 0 < md.length then metadataLoop env md outs else ([], .ok ())

/-- The per-file rename loop (routes.go lines 152-161 and 217-226):
output i is renamed to input i's name with the format suffix appended;
the first failure aborts.  It is only ever invoked with as many outputs
as inputs. -/
def renameLoop (env : Env) (suffix : String) :
    List String → List String → Run (List String)
  | [], _ => ([], .ok [])
  | _ :: _, [] => ([], .ok [])
  | input :: ins, outPath :: outs =>
    let newPath := input ++ suffix
    let ev := Event.renameCall outPath newPath
    match env.renameResult outPath newPath with
    | .error _ => ([ev], .error .renameOutputPath)
    | .ok _ =>
      let r := renameLoop env suffix ins outs
      (ev :: r.1,
        match r.2 with
        | .error he => .error he
        | .ok rs => .ok (newPath :: rs))

/-- Stage 5 (routes.go lines 150-162, 215-227): the rename loop runs
only when there is more than one current output; a single output keeps
its allocated path. -/
def renameStage (env : Env) (suffix : String) (inputs outs : List String) :
    Run (List String) :=
  if 1 < outs.length then renameLoop env suffix inputs outs
  else ([], .ok outs)

/-- The final `ctx.AddOutputPaths` call (routes.go lines 166-169,
231-234): hands the final output set to the response. -/
def addStage (env : Env) (outs : List String) : Run (List String) :=
  let ev := Event.addOutputPathsCall outs
  match env.addOutputPathsResult outs with
  | .error _ => ([ev], .error .addOutputPaths)
  | .ok _ => ([ev], .ok outs)

/-- The event sequence stage 1 emits while it processes a list of
inputs starting at allocation counter `n` (one `pdfCall` per input, in
order, each with a fresh output path). -/
def convertTrace (opts : Options) : List String → Nat → List Event
  | [], _ => []
  | input :: rest, n =>
    Event.pdfCall input (genPath n ".pdf") opts :: convertTrace opts rest (n + 1)

/-- The event sequence the stage-3 loop emits over a list of current
outputs starting at allocation counter `n`. -/
def normalizeTrace (formats : PdfFormats) : List String → Nat → List Event
  | [], _ => []
  | inPath :: rest, n =>
    Event.engineConvertCall formats inPath (genPath n ".pdf") :: normalizeTrace formats rest (n + 1)

/-- The event sequence the stage-4 loop emits over a list of current
outputs. -/
def metadataTrace (md : Metadata) (outs : List String) : List Event :=
  outs.map (fun o => Event.writeMetadataCall md o)

/-- The event sequence the rename loop emits over paired inputs and
outputs. -/
def renameTrace (suffix : String) : List String → List String → List Event
  | [], _ => []
  | _ :: _, [] => []
  | input :: ins, outPath :: outs =>
    Event.renameCall outPath (input ++ suffix) :: renameTrace suffix ins outs

/-- The event sequence the DOCX conversion loop emits. -/
def docxTrace : List String → Nat → List Event
  | [], _ => []
  | input :: rest, n =>
    Event.docxCall input (genPath n ".docx") :: docxTrace rest (n + 1)

/-- The `/forms/libreoffice/convert` handler (routes.go lines 23-172):
validate, convert each input, conditionally merge, conditionally
normalize, conditionally stamp metadata, conditionally rename, then
register the outputs. -/
def runPdf (env : Env) (req : PdfRequest) : Run (List String) :=
  sbind ([], validateForm env req) (fun md =>
  sbind (convertLoop env req.options req.pdfFormats req.nativePageRanges req.inputPaths 0) (fun p1 =>
  sbind (mergeStage env req.merge p1.1 p1.2) (fun p2 =>
  sbind (normalizeStage env req.nativePdfFormats req.pdfFormats p2.1 p2.2) (fun p3 =>
  sbind (metadataStage env md p3.1) (fun _ =>
  sbind (renameStage env ".pdf" req.inputPaths p3.1) (fun outs =>
  addStage env outs))))))

/-- The conversion loop of the DOCX handler (routes.go lines 199-213):
every converter failure, whatever its cause, is wrapped uniformly as the
single internal-server `convertToDocx` error. -/
def docxLoop (env : Env) : List String → Nat → Run (List String × Nat)
  | [], n => ([], .ok ([], n))
  | input :: rest, n =>
    let out := genPath n ".docx"
    let ev := Event.docxCall input out
    match env.docxResult input out with
    | .error _ => ([ev], .error .convertToDocx)
    | .ok _ =>
      let r := docxLoop env rest (n + 1)
      (ev :: r.1,
        match r.2 with
        | .error he => .error he
        | .ok (outs, m) => .ok (out :: outs, m))

/-- The `/forms/libreoffice/convert/docx` handler (routes.go lines
183-237): validate the mandatory inputs, convert each, rename when more
than one output, register the outputs. -/
def runDocx (env : Env) (inputs : List String) : Run (List String) :=
  if inputs.isEmpty then ([], .error .validateFormData)
  else
    sbind (docxLoop env inputs 0) (fun p1 =>
    sbind (renameStage env ".docx" inputs p1.1) (fun outs =>
    addStage env outs))

/-- A test environment in which every external call succeeds; used to
evaluate the pipelines on concrete inputs. -/
def allOkEnv : Env where
  pdfResult := fun _ _ _ => .ok ()
  docxResult := fun _ _ => .ok ()
  mergeResult := fun _ _ => .ok ()
  convertResult := fun _ _ _ => .ok ()
  writeMetadataResult := fun _ _ => .ok ()
  renameResult := fun _ _ => .ok ()
  addOutputPathsResult := fun _ => .ok ()
  unmarshalMetadata := fun _ => .ok []

/-- A test request with every form field at its default value
(routes.go lines 42-49), used to evaluate the pipeline on concrete
inputs. -/
def baseReq (inputs : List String) : PdfRequest where
  inputPaths := inputs
  landscape := false
  nativePageRanges := ""
  exportFormFields := true
  singlePageSheets := false
  pdfa := ""
  pdfua := false
  nativePdfFormats := true
  merge := false
  metadataRaw := ""

/-- A test request asking for post-merge normalization: a PDF/A target
with `nativePdfFormats` off. -/
def normReq (inputs : List String) : PdfRequest :=
  { baseReq inputs with pdfa := "PDF-A-1b", nativePdfFormats := false }

/-- A test environment whose metadata field unmarshals to a one-entry
mapping. -/
def mdEnv : Env :=
  { allOkEnv with unmarshalMetadata := fun _ => .ok [("Author", "x")] }

/-- A test request combining post-merge normalization with metadata
stamping. -/
def mdNormReq : PdfRequest :=
  { normReq ["a", "b"] with metadataRaw := "\x7b\"Author\": \"x\"\x7d" }

/-- A test request with metadata supplied. -/
def mdReq (inputs : List String) : PdfRequest :=
  { baseReq inputs with metadataRaw := "\x7b\"Author\": \"x\"\x7d" }

/-- A test environment whose converter fails on input `b`. -/
def failPdfOnB : Env :=
  { allOkEnv with
    pdfResult := fun i _ _ => if i = "b" then .error (.other "boom") else .ok () }

/-- A test environment whose `engine.Convert` fails on its second input
path. -/
def failNormOnSecond : Env :=
  { allOkEnv with
    convertResult := fun _ i _ =>
      if i = "alloc-1.pdf" then .error "norm-fail" else .ok () }

/-- A test environment whose `engine.WriteMetadata` fails on the second
output path. -/
def failMdOnSecond : Env :=
  { mdEnv with
    writeMetadataResult := fun _ o =>
      if o = "alloc-1.pdf" then .error "md-fail" else .ok () }

/-- A test environment whose converter rejects the PDF formats. -/
def invalidFmtEnv : Env :=
  { allOkEnv with pdfResult := fun _ _ _ => .error .invalidPdfFormats }

/-- A test environment whose converter rejects the page ranges. -/
def malformedEnv : Env :=
  { allOkEnv with pdfResult := fun _ _ _ => .error .malformedPageRanges }

/-- A test request with a PDF/A target set. -/
def badFmtReq : PdfRequest := { baseReq ["a"] with pdfa := "PDF-X" }

/-- A test request with a page-range expression set. -/
def badRangeReq : PdfRequest := { baseReq ["a"] with nativePageRanges := "1-bad" }

/-- A test environment whose rename fails on the second allocated PDF
output. -/
def failRenameOnSecond : Env :=
  { allOkEnv with
    renameResult := fun o _ => if o = "alloc-1.pdf" then .error "re-fail" else .ok () }

/-- A test environment whose rename fails on the second allocated DOCX
output. -/
def failRenameOnSecondDocx : Env :=
  { allOkEnv with
    renameResult := fun o _ => if o = "alloc-1.docx" then .error "re-fail" else .ok () }

/-- A test environment whose DOCX converter fails on input `b`. -/
def failSecondDocx : Env :=
  { allOkEnv with
    docxResult := fun i _ => if i = "b" then .error (.other "boom") else .ok () }

/-- A test environment whose JSON unmarshalling always fails, as it
would on a malformed `metadata` field. -/
def badJsonEnv : Env :=
  { allOkEnv with unmarshalMetadata := fun _ => .error "invalid character" }

/-! ### Plumbing lemmas about `sbind` -/

theorem sbind_of_err {α β : Type} {x : Run α} {e : HandlerError} (f : α → Run β)
    (h : x.2 = .error e) : sbind x f = (x.1, .error e) := by
  unfold sbind
  rw [h]

theorem sbind_of_ok {α β : Type} {x : Run α} {a : α} (f : α → Run β)
    (h : x.2 = .ok a) : sbind x f = (x.1 ++ (f a).1, (f a).2) := by
  unfold sbind
  rw [h]

theorem sbind_ok_iff {α β : Type} {x : Run α} {f : α → Run β} {b : β} :
    (sbind x f).2 = .ok b ↔ ∃ a, x.2 = .ok a ∧ (f a).2 = .ok b := by
  unfold sbind
  cases hx : x.2 with
  | error e => simp
  | ok a =>
    simp only
    constructor
    · intro h; exact ⟨a, rfl, h⟩
    · rintro ⟨a', ha', h⟩
      cases ha'
      exact h

theorem mem_sbind {α β : Type} {x : Run α} {f : α → Run β} {e : Event}
    (h : e ∈ (sbind x f).1) : e ∈ x.1 ∨ ∃ a, x.2 = .ok a ∧ e ∈ (f a).1 := by
  unfold sbind at h
  cases hx : x.2 with
  | error he => rw [hx] at h; exact Or.inl h
  | ok a =>
    rw [hx] at h
    rcases List.mem_append.1 h with h1 | h2
    · exact Or.inl h1
    · exact Or.inr ⟨a, rfl, h2⟩

/-! ### Stage 1: the conversion loop -/

theorem convertLoop_ok_len (env : Env) (opts : Options) (formats : PdfFormats)
    (ranges : String) :
    ∀ (inputs : List String) (n : Nat) (outs : List String) (m : Nat),
      (convertLoop env opts formats ranges inputs n).2 = .ok (outs, m) →
      outs.length = inputs.length := by
  intro inputs
  induction inputs with
  | nil =>
    intro n outs m h
    simp only [convertLoop] at h
    cases h
    rfl
  | cons input rest ih =>
    intro n outs m h
    cases henv : env.pdfResult input (genPath n ".pdf") opts with
    | error e => simp [convertLoop, henv] at h
    | ok u =>
      simp only [convertLoop, henv] at h
      cases hr : (convertLoop env opts formats ranges rest (n + 1)).2 with
      | error he => rw [hr] at h; simp at h
      | ok p =>
        rw [hr] at h
        cases h
        simpa using congrArg Nat.succ (ih (n + 1) p.1 p.2 (by rw [hr]))

theorem convertLoop_mem (env : Env) (opts : Options) (formats : PdfFormats)
    (ranges : String) :
    ∀ (inputs : List String) (n : Nat) (e : Event),
      e ∈ (convertLoop env opts formats ranges inputs n).1 →
      ∃ i o, e = .pdfCall i o opts := by
  intro inputs
  induction inputs with
  | nil => intro n e h; simp [convertLoop] at h
  | cons input rest ih =>
    intro n e h
    cases henv : env.pdfResult input (genPath n ".pdf") opts with
    | error e' =>
      simp only [convertLoop, henv, List.mem_singleton] at h
      exact ⟨input, genPath n ".pdf", h⟩
    | ok u =>
      simp only [convertLoop, henv, List.mem_cons] at h
      rcases h with h | h
      · exact ⟨input, genPath n ".pdf", h⟩
      · exact ih (n + 1) e h

theorem convertLoop_ok_forms (env : Env) (opts : Options) (formats : PdfFormats)
    (ranges : String) :
    ∀ (inputs : List String) (n : Nat) (outs : List String) (m : Nat),
      (convertLoop env opts formats ranges inputs n).2 = .ok (outs, m) →
      ∀ o ∈ outs, ∃ k, o = genPath k ".pdf" := by
  intro inputs
  induction inputs with
  | nil =>
    intro n outs m h
    simp only [convertLoop] at h
    cases h
    intro o ho
    simp at ho
  | cons input rest ih =>
    intro n outs m h
    cases henv : env.pdfResult input (genPath n ".pdf") opts with
    | error e => simp [convertLoop, henv] at h
    | ok u =>
      simp only [convertLoop, henv] at h
      cases hr : (convertLoop env opts formats ranges rest (n + 1)).2 with
      | error he => rw [hr] at h; simp at h
      | ok p =>
        rw [hr] at h
        cases h
        intro o ho
        rcases List.mem_cons.1 ho with ho | ho
        · exact ⟨n, ho⟩
        · exact ih (n + 1) p.1 p.2 (by rw [hr]) o ho

theorem convertLoop_fail (env : Env) (opts : Options) (formats : PdfFormats)
    (ranges : String) :
    ∀ (k : Nat) (inputs : List String) (n : Nat) (f : String) (e : UnoError),
      inputs.get? k = some f →
      (∀ j g, j < k → inputs.get? j = some g →
        env.pdfResult g (genPath (n + j) ".pdf") opts = .ok ()) →
      env.pdfResult f (genPath (n + k) ".pdf") opts = .error e →
      convertLoop env opts formats ranges inputs n =
        (convertTrace opts (inputs.take (k + 1)) n,
         .error (mapUnoError e formats ranges)) := by
  intro k
  induction k with
  | zero =>
    intro inputs n f e hget hpre hfail
    cases inputs with
    | nil => cases hget
    | cons a rest =>
      have ha : a = f := by simpa using hget
      subst ha
      simp only [Nat.add_zero] at hfail
      simp [convertLoop, hfail, convertTrace]
  | succ k ih =>
    intro inputs n f e hget hpre hfail
    cases inputs with
    | nil => cases hget
    | cons a rest =>
      have h0 : env.pdfResult a (genPath n ".pdf") opts = .ok () := by
        have := hpre 0 a (Nat.succ_pos k) rfl
        simpa using this
      have hget' : rest.get? k = some f := by simpa using hget
      have hpre' : ∀ j g, j < k → rest.get? j = some g →
          env.pdfResult g (genPath (n + 1 + j) ".pdf") opts = .ok () := by
        intro j g hj hg
        have := hpre (j + 1) g (Nat.succ_lt_succ hj) (by simpa using hg)
        have harith : n + (j + 1) = n + 1 + j := by omega
        rwa [harith] at this
      have hfail' : env.pdfResult f (genPath (n + 1 + k) ".pdf") opts = .error e := by
        have harith : n + (k + 1) = n + 1 + k := by omega
        rwa [harith] at hfail
      have hrec := ih rest (n + 1) f e hget' hpre' hfail'
      simp [convertLoop, h0, hrec, convertTrace, List.take_succ_cons]

/-! ### Stage 2: merge -/

theorem mergeStage_neg {env : Env} {mg : Bool} {outs : List String} {n : Nat}
    (h : ¬(1 < outs.length ∧ mg = true)) :
    mergeStage env mg outs n = ([], .ok (outs, n)) := by
  unfold mergeStage
  rw [if_neg h]

theorem mergeStage_fst_pos {env : Env} {mg : Bool} {outs : List String} {n : Nat}
    (h : 1 < outs.length ∧ mg = true) :
    (mergeStage env mg outs n).1 = [Event.mergeCall outs (genPath n ".pdf")] := by
  cases hm : env.mergeResult outs (genPath n ".pdf") <;>
    simp [mergeStage, h, hm]

theorem mergeStage_mem {env : Env} {mg : Bool} {outs : List String} {n : Nat} {e : Event}
    (h : e ∈ (mergeStage env mg outs n).1) :
    e = .mergeCall outs (genPath n ".pdf") ∧ 1 < outs.length ∧ mg = true := by
  by_cases hc : 1 < outs.length ∧ mg = true
  · rw [mergeStage_fst_pos hc] at h
    exact ⟨by simpa using h, hc⟩
  · rw [mergeStage_neg hc] at h
    simp at h

theorem mergeStage_ok {env : Env} {mg : Bool} {outs outs2 : List String} {n n2 : Nat}
    (h : (mergeStage env mg outs n).2 = .ok (outs2, n2)) :
    ((1 < outs.length ∧ mg = true) ∧ outs2 = [genPath n ".pdf"] ∧ n2 = n + 1) ∨
      (¬(1 < outs.length ∧ mg = true) ∧ outs2 = outs ∧ n2 = n) := by
  by_cases hc : 1 < outs.length ∧ mg = true
  · left
    refine ⟨hc, ?_⟩
    cases hm : env.mergeResult outs (genPath n ".pdf") with
    | error e' => simp [mergeStage, hc, hm] at h
    | ok u =>
      simp only [mergeStage, if_pos hc, hm] at h
      cases h
      exact ⟨rfl, rfl⟩
  · right
    rw [mergeStage_neg hc] at h
    cases h
    exact ⟨hc, rfl, rfl⟩

/-! ### Stage 3: normalization -/

theorem normalizeLoop_ok_len (env : Env) (formats : PdfFormats) :
    ∀ (paths : List String) (n : Nat) (outs : List String) (m : Nat),
      (normalizeLoop env formats paths n).2 = .ok (outs, m) →
      outs.length = paths.length := by
  intro paths
  induction paths with
  | nil =>
    intro n outs m h
    simp only [normalizeLoop] at h
    cases h
    rfl
  | cons p rest ih =>
    intro n outs m h
    cases henv : env.convertResult formats p (genPath n ".pdf") with
    | error e => simp [normalizeLoop, henv] at h
    | ok u =>
      simp only [normalizeLoop, henv] at h
      cases hr : (normalizeLoop env formats rest (n + 1)).2 with
      | error he => rw [hr] at h; simp at h
      | ok q =>
        rw [hr] at h
        cases h
        simpa using congrArg Nat.succ (ih (n + 1) q.1 q.2 (by rw [hr]))

theorem normalizeLoop_mem (env : Env) (formats : PdfFormats) :
    ∀ (paths : List String) (n : Nat) (e : Event),
      e ∈ (normalizeLoop env formats paths n).1 →
      ∃ i o, e = .engineConvertCall formats i o := by
  intro paths
  induction paths with
  | nil => intro n e h; simp [normalizeLoop] at h
  | cons p rest ih =>
    intro n e h
    cases henv : env.convertResult formats p (genPath n ".pdf") with
    | error e' =>
      simp only [normalizeLoop, henv, List.mem_singleton] at h
      exact ⟨p, genPath n ".pdf", h⟩
    | ok u =>
      simp only [normalizeLoop, henv, List.mem_cons] at h
      rcases h with h | h
      · exact ⟨p, genPath n ".pdf", h⟩
      · exact ih (n + 1) e h

theorem normalizeLoop_ok_forms (env : Env) (formats : PdfFormats) :
    ∀ (paths : List String) (n : Nat) (outs : List String) (m : Nat),
      (normalizeLoop env formats paths n).2 = .ok (outs, m) →
      ∀ o ∈ outs, ∃ k, o = genPath k ".pdf" := by
  intro paths
  induction paths with
  | nil =>
    intro n outs m h
    simp only [normalizeLoop] at h
    cases h
    intro o ho
    simp at ho
  | cons p rest ih =>
    intro n outs m h
    cases henv : env.convertResult formats p (genPath n ".pdf") with
    | error e => simp [normalizeLoop, henv] at h
    | ok u =>
      simp only [normalizeLoop, henv] at h
      cases hr : (normalizeLoop env formats rest (n + 1)).2 with
      | error he => rw [hr] at h; simp at h
      | ok q =>
        rw [hr] at h
        cases h
        intro o ho
        rcases List.mem_cons.1 ho with ho | ho
        · exact ⟨n, ho⟩
        · exact ih (n + 1) q.1 q.2 (by rw [hr]) o ho

theorem normalizeLoop_head (env : Env) (formats : PdfFormats) (p : String)
    (rest : List String) (n : Nat) :
    ∃ ev ∈ (normalizeLoop env formats (p :: rest) n).1, ev.isEngineConvertCall = true := by
  refine ⟨.engineConvertCall formats p (genPath n ".pdf"), ?_, rfl⟩
  cases henv : env.convertResult formats p (genPath n ".pdf") <;>
    simp [normalizeLoop, henv]

theorem normalizeLoop_fail (env : Env) (formats : PdfFormats) :
    ∀ (k : Nat) (paths : List String) (n : Nat) (f msg : String),
      paths.get? k = some f →
      (∀ j g, j < k → paths.get? j = some g →
        env.convertResult formats g (genPath (n + j) ".pdf") = .ok ()) →
      env.convertResult formats f (genPath (n + k) ".pdf") = .error msg →
      normalizeLoop env formats paths n =
        (normalizeTrace formats (paths.take (k + 1)) n, .error .convertPdf) := by
  intro k
  induction k with
  | zero =>
    intro paths n f msg hget hpre hfail
    cases paths with
    | nil => cases hget
    | cons a rest =>
      have ha : a = f := by simpa using hget
      subst ha
      simp only [Nat.add_zero] at hfail
      simp [normalizeLoop, hfail, normalizeTrace]
  | succ k ih =>
    intro paths n f msg hget hpre hfail
    cases paths with
    | nil => cases hget
    | cons a rest =>
      have h0 : env.convertResult formats a (genPath n ".pdf") = .ok () := by
        have := hpre 0 a (Nat.succ_pos k) rfl
        simpa using this
      have hget' : rest.get? k = some f := by simpa using hget
      have hpre' : ∀ j g, j < k → rest.get? j = some g →
          env.convertResult formats g (genPath (n + 1 + j) ".pdf") = .ok () := by
        intro j g hj hg
        have := hpre (j + 1) g (Nat.succ_lt_succ hj) (by simpa using hg)
        have harith : n + (j + 1) = n + 1 + j := by omega
        rwa [harith] at this
      have hfail' : env.convertResult formats f (genPath (n + 1 + k) ".pdf") = .error msg := by
        have harith : n + (k + 1) = n + 1 + k := by omega
        rwa [harith] at hfail
      have hrec := ih rest (n + 1) f msg hget' hpre' hfail'
      simp [normalizeLoop, h0, hrec, normalizeTrace, List.take_succ_cons]

theorem normalizeStage_pos {env : Env} {native : Bool} {formats : PdfFormats}
    {outs : List String} {n : Nat} (hc : native = false ∧ formats ≠ zeroValued) :
    normalizeStage env native formats outs n = normalizeLoop env formats outs n := by
  unfold normalizeStage
  rw [if_pos hc]

theorem normalizeStage_neg {env : Env} {native : Bool} {formats : PdfFormats}
    {outs : List String} {n : Nat} (hc : ¬(native = false ∧ formats ≠ zeroValued)) :
    normalizeStage env native formats outs n = ([], .ok (outs, n)) := by
  unfold normalizeStage
  rw [if_neg hc]

theorem normalizeStage_mem {env : Env} {native : Bool} {formats : PdfFormats}
    {outs : List String} {n : Nat} {e : Event}
    (h : e ∈ (normalizeStage env native formats outs n).1) :
    (native = false ∧ formats ≠ zeroValued) ∧ ∃ i o, e = .engineConvertCall formats i o := by
  by_cases hc : native = false ∧ formats ≠ zeroValued
  · rw [normalizeStage_pos hc] at h
    exact ⟨hc, normalizeLoop_mem env formats outs n e h⟩
  · rw [normalizeStage_neg hc] at h
    simp at h

theorem normalizeStage_ok_len {env : Env} {native : Bool} {formats : PdfFormats}
    {outs outs2 : List String} {n n2 : Nat}
    (h : (normalizeStage env native formats outs n).2 = .ok (outs2, n2)) :
    outs2.length = outs.length := by
  by_cases hc : native = false ∧ formats ≠ zeroValued
  · rw [normalizeStage_pos hc] at h
    exact normalizeLoop_ok_len env formats outs n outs2 n2 h
  · rw [normalizeStage_neg hc] at h
    cases h
    rfl

theorem normalizeStage_ok_forms {env : Env} {native : Bool} {formats : PdfFormats}
    {outs outs2 : List String} {n n2 : Nat}
    (h : (normalizeStage env native formats outs n).2 = .ok (outs2, n2))
    (hin : ∀ o ∈ outs, ∃ k, o = genPath k ".pdf") :
    ∀ o ∈ outs2, ∃ k, o = genPath k ".pdf" := by
  by_cases hc : native = false ∧ formats ≠ zeroValued
  · rw [normalizeStage_pos hc] at h
    exact normalizeLoop_ok_forms env formats outs n outs2 n2 h
  · rw [normalizeStage_neg hc] at h
    cases h
    exact hin

/-! ### Stage 4: metadata -/

theorem metadataLoop_mem (env : Env) (md : Metadata) :
    ∀ (paths : List String) (e : Event),
      e ∈ (metadataLoop env md paths).1 → ∃ o, e = .writeMetadataCall md o := by
  intro paths
  induction paths with
  | nil => intro e h; simp [metadataLoop] at h
  | cons p rest ih =>
    intro e h
    cases henv : env.writeMetadataResult md p with
    | error e' =>
      simp only [metadataLoop, henv, List.mem_singleton] at h
      exact ⟨p, h⟩
    | ok u =>
      simp only [metadataLoop, henv, List.mem_cons] at h
      rcases h with h | h
      · exact ⟨p, h⟩
      · exact ih e h

theorem metadataLoop_fail (env : Env) (md : Metadata) :
    ∀ (k : Nat) (paths : List String) (f msg : String),
      paths.get? k = some f →
      (∀ j g, j < k → paths.get? j = some g → env.writeMetadataResult md g = .ok ()) →
      env.writeMetadataResult md f = .error msg →
      metadataLoop env md paths =
        (metadataTrace md (paths.take (k + 1)), .error .writeMetadata) := by
  intro k
  induction k with
  | zero =>
    intro paths f msg hget hpre hfail
    cases paths with
    | nil => cases hget
    | cons a rest =>
      have ha : a = f := by simpa using hget
      subst ha
      simp [metadataLoop, hfail, metadataTrace]
  | succ k ih =>
    intro paths f msg hget hpre hfail
    cases paths with
    | nil => cases hget
    | cons a rest =>
      have h0 : env.writeMetadataResult md a = .ok () := hpre 0 a (Nat.succ_pos k) rfl
      have hget' : rest.get? k = some f := by simpa using hget
      have hpre' : ∀ j g, j < k → rest.get? j = some g →
          env.writeMetadataResult md g = .ok () := by
        intro j g hj hg
        exact hpre (j + 1) g (Nat.succ_lt_succ hj) (by simpa using hg)
      have hrec := ih rest f msg hget' hpre' hfail
      simp [metadataLoop, h0, hrec, metadataTrace, List.take_succ_cons]

theorem metadataStage_pos {env : Env} {md : Metadata} {outs : List String}
    (hc : 0 < md.length) :
    metadataStage env md outs = metadataLoop env md outs := by
  unfold metadataStage
  rw [if_pos hc]

theorem metadataStage_neg {env : Env} {md : Metadata} {outs : List String}
    (hc : ¬0 < md.length) :
    metadataStage env md outs = ([], .ok ()) := by
  unfold metadataStage
  rw [if_neg hc]

theorem metadataStage_mem {env : Env} {md : Metadata} {outs : List String} {e : Event}
    (h : e ∈ (metadataStage env md outs).1) :
    0 < md.length ∧ ∃ o, e = .writeMetadataCall md o := by
  by_cases hc : 0 < md.length
  · rw [metadataStage_pos hc] at h
    exact ⟨hc, metadataLoop_mem env md outs e h⟩
  · rw [metadataStage_neg hc] at h
    simp at h

/-! ### Stage 5: renaming, and output registration -/

theorem renameLoop_mem (env : Env) (suffix : String) :
    ∀ (ins outs : List String) (e : Event),
      e ∈ (renameLoop env suffix ins outs).1 → e.isRenameCall = true := by
  intro ins
  induction ins with
  | nil => intro outs e h; simp [renameLoop] at h
  | cons input rest ih =>
    intro outs e h
    cases outs with
    | nil => simp [renameLoop] at h
    | cons outPath outRest =>
      cases henv : env.renameResult outPath (input ++ suffix) with
      | error e' =>
        simp only [renameLoop, henv, List.mem_singleton] at h
        subst h
        rfl
      | ok u =>
        simp only [renameLoop, henv, List.mem_cons] at h
        rcases h with h | h
        · subst h; rfl
        · exact ih outRest e h

theorem renameLoop_ok_map (env : Env) (suffix : String) :
    ∀ (ins outs rs : List String), ins.length = outs.length →
      (renameLoop env suffix ins outs).2 = .ok rs →
      rs = ins.map (fun s => s ++ suffix) := by
  intro ins
  induction ins with
  | nil =>
    intro outs rs hlen h
    simp only [renameLoop] at h
    cases h
    rfl
  | cons input rest ih =>
    intro outs rs hlen h
    cases outs with
    | nil => simp at hlen
    | cons outPath outRest =>
      cases henv : env.renameResult outPath (input ++ suffix) with
      | error e' => simp [renameLoop, henv] at h
      | ok u =>
        simp only [renameLoop, henv] at h
        cases hr : (renameLoop env suffix rest outRest).2 with
        | error he => rw [hr] at h; simp at h
        | ok rs' =>
          rw [hr] at h
          cases h
          have := ih outRest rs' (by simpa using hlen) hr
          simp [this]

theorem renameLoop_fail (env : Env) (suffix : String) :
    ∀ (k : Nat) (ins outs : List String) (g o msg : String),
      ins.get? k = some g →
      outs.get? k = some o →
      (∀ j g' o', j < k → ins.get? j = some g' → outs.get? j = some o' →
        env.renameResult o' (g' ++ suffix) = .ok ()) →
      env.renameResult o (g ++ suffix) = .error msg →
      renameLoop env suffix ins outs =
        (renameTrace suffix (ins.take (k + 1)) (outs.take (k + 1)),
         .error .renameOutputPath) := by
  intro k
  induction k with
  | zero =>
    intro ins outs g o msg hgetI hgetO hpre hfail
    cases ins with
    | nil => cases hgetI
    | cons a restI =>
      cases outs with
      | nil => cases hgetO
      | cons b restO =>
        have ha : a = g := by simpa using hgetI
        have hb : b = o := by simpa using hgetO
        subst ha
        subst hb
        simp [renameLoop, hfail, renameTrace]
  | succ k ih =>
    intro ins outs g o msg hgetI hgetO hpre hfail
    cases ins with
    | nil => cases hgetI
    | cons a restI =>
      cases outs with
      | nil => cases hgetO
      | cons b restO =>
        have h0 : env.renameResult b (a ++ suffix) = .ok () :=
          hpre 0 a b (Nat.succ_pos k) rfl rfl
        have hrec := ih restI restO g o msg (by simpa using hgetI) (by simpa using hgetO)
          (fun j g' o' hj hg' ho' =>
            hpre (j + 1) g' o' (Nat.succ_lt_succ hj) (by simpa using hg') (by simpa using ho'))
          hfail
        simp [renameLoop, h0, hrec, renameTrace, List.take_succ_cons]

theorem renameStage_pos {env : Env} {suffix : String} {ins outs : List String}
    (hc : 1 < outs.length) :
    renameStage env suffix ins outs = renameLoop env suffix ins outs := by
  unfold renameStage
  rw [if_pos hc]

theorem renameStage_neg {env : Env} {suffix : String} {ins outs : List String}
    (hc : ¬1 < outs.length) :
    renameStage env suffix ins outs = ([], .ok outs) := by
  unfold renameStage
  rw [if_neg hc]

theorem renameStage_mem {env : Env} {suffix : String} {ins outs : List String} {e : Event}
    (h : e ∈ (renameStage env suffix ins outs).1) :
    1 < outs.length ∧ e.isRenameCall = true := by
  by_cases hc : 1 < outs.length
  · rw [renameStage_pos hc] at h
    exact ⟨hc, renameLoop_mem env suffix ins outs e h⟩
  · rw [renameStage_neg hc] at h
    simp at h

theorem renameStage_ok {env : Env} {suffix : String} {ins outs rs : List String}
    (hlen : ins.length = outs.length)
    (h : (renameStage env suffix ins outs).2 = .ok rs) :
    (1 < outs.length ∧ rs = ins.map (fun s => s ++ suffix)) ∨
      (¬1 < outs.length ∧ rs = outs) := by
  by_cases hc : 1 < outs.length
  · rw [renameStage_pos hc] at h
    exact Or.inl ⟨hc, renameLoop_ok_map env suffix ins outs rs hlen h⟩
  · rw [renameStage_neg hc] at h
    cases h
    exact Or.inr ⟨hc, rfl⟩

theorem addStage_mem {env : Env} {outs : List String} {e : Event}
    (h : e ∈ (addStage env outs).1) : e = .addOutputPathsCall outs := by
  cases henv : env.addOutputPathsResult outs <;>
    simpa [addStage, henv] using h

theorem addStage_ok {env : Env} {outs rs : List String}
    (h : (addStage env outs).2 = .ok rs) : rs = outs := by
  cases henv : env.addOutputPathsResult outs with
  | error e => simp [addStage, henv] at h
  | ok u =>
    simp only [addStage, henv] at h
    cases h
    rfl

/-! ### The DOCX conversion loop -/

theorem docxLoop_ok_len (env : Env) :
    ∀ (inputs : List String) (n : Nat) (outs : List String) (m : Nat),
      (docxLoop env inputs n).2 = .ok (outs, m) → outs.length = inputs.length := by
  intro inputs
  induction inputs with
  | nil =>
    intro n outs m h
    simp only [docxLoop] at h
    cases h
    rfl
  | cons input rest ih =>
    intro n outs m h
    cases henv : env.docxResult input (genPath n ".docx") with
    | error e => simp [docxLoop, henv] at h
    | ok u =>
      simp only [docxLoop, henv] at h
      cases hr : (docxLoop env rest (n + 1)).2 with
      | error he => rw [hr] at h; simp at h
      | ok p =>
        rw [hr] at h
        cases h
        simpa using congrArg Nat.succ (ih (n + 1) p.1 p.2 (by rw [hr]))

theorem docxLoop_fail (env : Env) :
    ∀ (k : Nat) (inputs : List String) (n : Nat) (f : String) (e : UnoError),
      inputs.get? k = some f →
      (∀ j g, j < k → inputs.get? j = some g →
        env.docxResult g (genPath (n + j) ".docx") = .ok ()) →
      env.docxResult f (genPath (n + k) ".docx") = .error e →
      docxLoop env inputs n =
        (docxTrace (inputs.take (k + 1)) n, .error .convertToDocx) := by
  intro k
  induction k with
  | zero =>
    intro inputs n f e hget hpre hfail
    cases inputs with
    | nil => cases hget
    | cons a rest =>
      have ha : a = f := by simpa using hget
      subst ha
      simp only [Nat.add_zero] at hfail
      simp [docxLoop, hfail, docxTrace]
  | succ k ih =>
    intro inputs n f e hget hpre hfail
    cases inputs with
    | nil => cases hget
    | cons a rest =>
      have h0 : env.docxResult a (genPath n ".docx") = .ok () := by
        have := hpre 0 a (Nat.succ_pos k) rfl
        simpa using this
      have hget' : rest.get? k = some f := by simpa using hget
      have hpre' : ∀ j g, j < k → rest.get? j = some g →
          env.docxResult g (genPath (n + 1 + j) ".docx") = .ok () := by
        intro j g hj hg
        have := hpre (j + 1) g (Nat.succ_lt_succ hj) (by simpa using hg)
        have harith : n + (j + 1) = n + 1 + j := by omega
        rwa [harith] at this
      have hfail' : env.docxResult f (genPath (n + 1 + k) ".docx") = .error e := by
        have harith : n + (k + 1) = n + 1 + k := by omega
        rwa [harith] at hfail
      have hrec := ih rest (n + 1) f e hget' hpre' hfail'
      simp [docxLoop, h0, hrec, docxTrace, List.take_succ_cons]

/-! ### Composition lemmas about `runPdf` -/

theorem runPdf_eq_of_validate_err {env : Env} {req : PdfRequest} {he : HandlerError}
    (hval : validateForm env req = .error he) :
    runPdf env req = ([], .error he) := by
  simp only [runPdf, sbind, hval]

theorem runPdf_eq_of_convert_err {env : Env} {req : PdfRequest} {md : Metadata}
    {he : HandlerError}
    (hval : validateForm env req = .ok md)
    (hconv : (convertLoop env req.options req.pdfFormats req.nativePageRanges
      req.inputPaths 0).2 = .error he) :
    runPdf env req =
      ((convertLoop env req.options req.pdfFormats req.nativePageRanges
        req.inputPaths 0).1, .error he) := by
  simp only [runPdf, sbind, hval, hconv, List.nil_append]

theorem runPdf_eq_of_merge_err {env : Env} {req : PdfRequest} {md : Metadata}
    {p1 : List String × Nat} {he : HandlerError}
    (hval : validateForm env req = .ok md)
    (hconv : (convertLoop env req.options req.pdfFormats req.nativePageRanges
      req.inputPaths 0).2 = .ok p1)
    (hmerge : (mergeStage env req.merge p1.1 p1.2).2 = .error he) :
    runPdf env req =
      ((convertLoop env req.options req.pdfFormats req.nativePageRanges
          req.inputPaths 0).1 ++ (mergeStage env req.merge p1.1 p1.2).1,
       .error he) := by
  simp only [runPdf, sbind, hval, hconv, hmerge, List.nil_append]

theorem runPdf_eq_of_norm_err {env : Env} {req : PdfRequest} {md : Metadata}
    {p1 p2 : List String × Nat} {he : HandlerError}
    (hval : validateForm env req = .ok md)
    (hconv : (convertLoop env req.options req.pdfFormats req.nativePageRanges
      req.inputPaths 0).2 = .ok p1)
    (hmerge : (mergeStage env req.merge p1.1 p1.2).2 = .ok p2)
    (hnorm : (normalizeStage env req.nativePdfFormats req.pdfFormats p2.1 p2.2).2 =
      .error he) :
    runPdf env req =
      ((convertLoop env req.options req.pdfFormats req.nativePageRanges
          req.inputPaths 0).1 ++
        ((mergeStage env req.merge p1.1 p1.2).1 ++
          (normalizeStage env req.nativePdfFormats req.pdfFormats p2.1 p2.2).1),
       .error he) := by
  simp only [runPdf, sbind, hval, hconv, hmerge, hnorm, List.nil_append]

theorem runPdf_eq_of_md_err {env : Env} {req : PdfRequest} {md : Metadata}
    {p1 p2 p3 : List String × Nat} {he : HandlerError}
    (hval : validateForm env req = .ok md)
    (hconv : (convertLoop env req.options req.pdfFormats req.nativePageRanges
      req.inputPaths 0).2 = .ok p1)
    (hmerge : (mergeStage env req.merge p1.1 p1.2).2 = .ok p2)
    (hnorm : (normalizeStage env req.nativePdfFormats req.pdfFormats p2.1 p2.2).2 = .ok p3)
    (hmd : (metadataStage env md p3.1).2 = .error he) :
    runPdf env req =
      ((convertLoop env req.options req.pdfFormats req.nativePageRanges
          req.inputPaths 0).1 ++
        ((mergeStage env req.merge p1.1 p1.2).1 ++
          ((normalizeStage env req.nativePdfFormats req.pdfFormats p2.1 p2.2).1 ++
            (metadataStage env md p3.1).1)),
       .error he) := by
  simp only [runPdf, sbind, hval, hconv, hmerge, hnorm, hmd, List.nil_append]

theorem runPdf_eq_of_rename_err {env : Env} {req : PdfRequest} {md : Metadata}
    {p1 p2 p3 : List String × Nat} {he : HandlerError}
    (hval : validateForm env req = .ok md)
    (hconv : (convertLoop env req.options req.pdfFormats req.nativePageRanges
      req.inputPaths 0).2 = .ok p1)
    (hmerge : (mergeStage env req.merge p1.1 p1.2).2 = .ok p2)
    (hnorm : (normalizeStage env req.nativePdfFormats req.pdfFormats p2.1 p2.2).2 = .ok p3)
    (hmd : (metadataStage env md p3.1).2 = .ok ())
    (hren : (renameStage env ".pdf" req.inputPaths p3.1).2 = .error he) :
    runPdf env req =
      ((convertLoop env req.options req.pdfFormats req.nativePageRanges
          req.inputPaths 0).1 ++
        ((mergeStage env req.merge p1.1 p1.2).1 ++
          ((normalizeStage env req.nativePdfFormats req.pdfFormats p2.1 p2.2).1 ++
            ((metadataStage env md p3.1).1 ++
              (renameStage env ".pdf" req.inputPaths p3.1).1))),
       .error he) := by
  simp only [runPdf, sbind, hval, hconv, hmerge, hnorm, hmd, hren, List.nil_append]

theorem runPdf_eq_of_stages {env : Env} {req : PdfRequest} {md : Metadata}
    {p1 p2 p3 : List String × Nat} {outs4 : List String}
    (hval : validateForm env req = .ok md)
    (hconv : (convertLoop env req.options req.pdfFormats req.nativePageRanges
      req.inputPaths 0).2 = .ok p1)
    (hmerge : (mergeStage env req.merge p1.1 p1.2).2 = .ok p2)
    (hnorm : (normalizeStage env req.nativePdfFormats req.pdfFormats p2.1 p2.2).2 = .ok p3)
    (hmd : (metadataStage env md p3.1).2 = .ok ())
    (hren : (renameStage env ".pdf" req.inputPaths p3.1).2 = .ok outs4) :
    runPdf env req =
      ((convertLoop env req.options req.pdfFormats req.nativePageRanges
          req.inputPaths 0).1 ++
        ((mergeStage env req.merge p1.1 p1.2).1 ++
          ((normalizeStage env req.nativePdfFormats req.pdfFormats p2.1 p2.2).1 ++
            ((metadataStage env md p3.1).1 ++
              ((renameStage env ".pdf" req.inputPaths p3.1).1 ++
                (addStage env outs4).1)))),
       (addStage env outs4).2) := by
  simp only [runPdf, sbind, hval, hconv, hmerge, hnorm, hmd, hren, List.nil_append]

theorem runPdf_ok_decomp {env : Env} {req : PdfRequest} {outs : List String}
    (h : (runPdf env req).2 = .ok outs) :
    ∃ md p1 p2 p3,
      validateForm env req = .ok md ∧
      (convertLoop env req.options req.pdfFormats req.nativePageRanges
        req.inputPaths 0).2 = .ok p1 ∧
      (mergeStage env req.merge p1.1 p1.2).2 = .ok p2 ∧
      (normalizeStage env req.nativePdfFormats req.pdfFormats p2.1 p2.2).2 = .ok p3 ∧
      (metadataStage env md p3.1).2 = .ok () ∧
      (renameStage env ".pdf" req.inputPaths p3.1).2 = .ok outs ∧
      (addStage env outs).2 = .ok outs := by
  unfold runPdf at h
  rcases sbind_ok_iff.1 h with ⟨md, hval, h⟩
  rcases sbind_ok_iff.1 h with ⟨p1, hconv, h⟩
  rcases sbind_ok_iff.1 h with ⟨p2, hmerge, h⟩
  rcases sbind_ok_iff.1 h with ⟨p3, hnorm, h⟩
  rcases sbind_ok_iff.1 h with ⟨u, hmd, h⟩
  rcases sbind_ok_iff.1 h with ⟨outs4, hren, h⟩
  have houts : outs = outs4 := addStage_ok h
  subst houts
  exact ⟨md, p1, p2, p3, hval, hconv, hmerge, hnorm, hmd, hren, h⟩

theorem runPdf_mem {env : Env} {req : PdfRequest} {e : Event}
    (h : e ∈ (runPdf env req).1) :
    ∃ md, validateForm env req = .ok md ∧
      (e ∈ (convertLoop env req.options req.pdfFormats req.nativePageRanges
          req.inputPaths 0).1 ∨
       ∃ p1, (convertLoop env req.options req.pdfFormats req.nativePageRanges
          req.inputPaths 0).2 = .ok p1 ∧
         (e ∈ (mergeStage env req.merge p1.1 p1.2).1 ∨
          ∃ p2, (mergeStage env req.merge p1.1 p1.2).2 = .ok p2 ∧
            (e ∈ (normalizeStage env req.nativePdfFormats req.pdfFormats p2.1 p2.2).1 ∨
             ∃ p3, (normalizeStage env req.nativePdfFormats req.pdfFormats p2.1 p2.2).2 =
                .ok p3 ∧
               (e ∈ (metadataStage env md p3.1).1 ∨
                ((metadataStage env md p3.1).2 = .ok () ∧
                 (e ∈ (renameStage env ".pdf" req.inputPaths p3.1).1 ∨
                  ∃ outs4, (renameStage env ".pdf" req.inputPaths p3.1).2 = .ok outs4 ∧
                    e ∈ (addStage env outs4).1)))))) := by
  unfold runPdf at h
  rcases mem_sbind h with h | ⟨md, hval, h⟩
  · simp at h
  refine ⟨md, by simpa using hval, ?_⟩
  rcases mem_sbind h with h | ⟨p1, hconv, h⟩
  · exact Or.inl h
  refine Or.inr ⟨p1, hconv, ?_⟩
  rcases mem_sbind h with h | ⟨p2, hmerge, h⟩
  · exact Or.inl h
  refine Or.inr ⟨p2, hmerge, ?_⟩
  rcases mem_sbind h with h | ⟨p3, hnorm, h⟩
  · exact Or.inl h
  refine Or.inr ⟨p3, hnorm, ?_⟩
  rcases mem_sbind h with h | ⟨u, hmd, h⟩
  · exact Or.inl h
  cases u
  refine Or.inr ⟨hmd, ?_⟩
  rcases mem_sbind h with h | ⟨outs4, hren, h⟩
  · exact Or.inl h
  exact Or.inr ⟨outs4, hren, h⟩

/-! ### Composition lemmas about `runDocx` -/

theorem runDocx_eq_of_docx_err {env : Env} {inputs : List String} {he : HandlerError}
    (hne : inputs.isEmpty = false)
    (hconv : (docxLoop env inputs 0).2 = .error he) :
    runDocx env inputs = ((docxLoop env inputs 0).1, .error he) := by
  simp only [runDocx, hne, Bool.false_eq_true, if_false, sbind, hconv]

theorem runDocx_eq_of_rename_err {env : Env} {inputs : List String}
    {p1 : List String × Nat} {he : HandlerError}
    (hne : inputs.isEmpty = false)
    (hconv : (docxLoop env inputs 0).2 = .ok p1)
    (hren : (renameStage env ".docx" inputs p1.1).2 = .error he) :
    runDocx env inputs =
      ((docxLoop env inputs 0).1 ++ (renameStage env ".docx" inputs p1.1).1,
       .error he) := by
  simp only [runDocx, hne, Bool.false_eq_true, if_false, sbind, hconv, hren]

theorem runDocx_eq_of_stages {env : Env} {inputs : List String}
    {p1 : List String × Nat} {outs2 : List String}
    (hne : inputs.isEmpty = false)
    (hconv : (docxLoop env inputs 0).2 = .ok p1)
    (hren : (renameStage env ".docx" inputs p1.1).2 = .ok outs2) :
    runDocx env inputs =
      ((docxLoop env inputs 0).1 ++
        ((renameStage env ".docx" inputs p1.1).1 ++ (addStage env outs2).1),
       (addStage env outs2).2) := by
  simp only [runDocx, hne, Bool.false_eq_true, if_false, sbind, hconv, hren]

theorem runDocx_ok_decomp {env : Env} {inputs outs : List String}
    (h : (runDocx env inputs).2 = .ok outs) :
    inputs.isEmpty = false ∧
      ∃ p1, (docxLoop env inputs 0).2 = .ok p1 ∧
        (renameStage env ".docx" inputs p1.1).2 = .ok outs ∧
        (addStage env outs).2 = .ok outs := by
  by_cases hne : inputs.isEmpty
  · simp [runDocx, hne] at h
  · have hne' : inputs.isEmpty = false := by simpa using hne
    refine ⟨hne', ?_⟩
    simp only [runDocx, hne', Bool.false_eq_true, if_false] at h
    rcases sbind_ok_iff.1 h with ⟨p1, hconv, h⟩
    rcases sbind_ok_iff.1 h with ⟨outs2, hren, h⟩
    have houts : outs = outs2 := addStage_ok h
    subst houts
    exact ⟨p1, hconv, hren, h⟩

theorem validateForm_ok_ne_nil {env : Env} {req : PdfRequest} {md : Metadata}
    (h : validateForm env req = .ok md) : req.inputPaths ≠ [] := by
  intro hnil
  simp [validateForm, hnil] at h

/-- Once validation and the conversion loop have succeeded, the run's
trace extends the conversion trace with the merge-stage trace, whatever
happens later. -/
theorem runPdf_trace_through_merge {env : Env} {req : PdfRequest} {md : Metadata}
    {p1 : List String × Nat}
    (hval : validateForm env req = .ok md)
    (hconv : (convertLoop env req.options req.pdfFormats req.nativePageRanges
      req.inputPaths 0).2 = .ok p1) :
    ∃ rest, (runPdf env req).1 =
      (convertLoop env req.options req.pdfFormats req.nativePageRanges
          req.inputPaths 0).1 ++
        ((mergeStage env req.merge p1.1 p1.2).1 ++ rest) := by
  cases hm : (mergeStage env req.merge p1.1 p1.2).2 with
  | error he =>
    refine ⟨[], ?_⟩
    rw [runPdf_eq_of_merge_err hval hconv hm]
    simp
  | ok p2 =>
    cases hn : (normalizeStage env req.nativePdfFormats req.pdfFormats p2.1 p2.2).2 with
    | error he => exact ⟨_, by rw [runPdf_eq_of_norm_err hval hconv hm hn]⟩
    | ok p3 =>
      cases hmd : (metadataStage env md p3.1).2 with
      | error he => exact ⟨_, by rw [runPdf_eq_of_md_err hval hconv hm hn hmd]⟩
      | ok u =>
        cases u
        cases hr : (renameStage env ".pdf" req.inputPaths p3.1).2 with
        | error he => exact ⟨_, by rw [runPdf_eq_of_rename_err hval hconv hm hn hmd hr]⟩
        | ok outs4 => exact ⟨_, by rw [runPdf_eq_of_stages hval hconv hm hn hmd hr]⟩

/-! ### The claims -/

/-- C1: for every non-empty input list, a successful PDF-pipeline run
returns exactly one output per input (in input order: when several
outputs remain, output i is input i's name plus `.pdf`), unless the
merge flag is set and there are at least two inputs, in which case
exactly one output is returned. -/
theorem claim1_pdf_output_arity (env : Env) (req : PdfRequest) (outs : List String)
    (h : (runPdf env req).2 = .ok outs) :
    req.inputPaths ≠ [] ∧
      ((req.merge = true ∧ 2 ≤ req.inputPaths.length) → outs.length = 1) ∧
      (¬(req.merge = true ∧ 2 ≤ req.inputPaths.length) →
        outs.length = req.inputPaths.length ∧
          (2 ≤ req.inputPaths.length →
            outs = req.inputPaths.map (fun s => s ++ ".pdf"))) := by
  obtain ⟨md, p1, p2, p3, hval, hconv, hmerge, hnorm, hmd, hren, hadd⟩ := runPdf_ok_decomp h
  obtain ⟨outs1, n1⟩ := p1
  obtain ⟨outs2, n2⟩ := p2
  obtain ⟨outs3, n3⟩ := p3
  dsimp only at hconv hmerge hnorm hmd hren
  have hne := validateForm_ok_ne_nil hval
  have hlen1 : outs1.length = req.inputPaths.length :=
    convertLoop_ok_len env req.options req.pdfFormats req.nativePageRanges
      req.inputPaths 0 outs1 n1 hconv
  have hlen3 : outs3.length = outs2.length := normalizeStage_ok_len hnorm
  rcases mergeStage_ok hmerge with ⟨hc, houts2, _⟩ | ⟨hnc, houts2, _⟩
  · subst houts2
    have h1 : outs3.length = 1 := by simpa using hlen3
    have hnotlt : ¬1 < outs3.length := by omega
    rw [renameStage_neg hnotlt] at hren
    cases hren
    refine ⟨hne, fun _ => h1, fun hnot => ?_⟩
    exact absurd ⟨hc.2, by omega⟩ hnot
  · subst houts2
    have hlen3' : outs3.length = req.inputPaths.length := by omega
    refine ⟨hne, ?_, ?_⟩
    · rintro ⟨hmg, hge⟩
      exact absurd ⟨by omega, hmg⟩ hnc
    · intro hnot
      by_cases hgt : 1 < outs3.length
      · rw [renameStage_pos hgt] at hren
        have hmap := renameLoop_ok_map env ".pdf" req.inputPaths outs3 outs (by omega) hren
        subst hmap
        exact ⟨by simp [hlen3'], fun _ => rfl⟩
      · rw [renameStage_neg hgt] at hren
        cases hren
        exact ⟨hlen3', fun hge => absurd hgt (by omega)⟩

/-- Witness for C1: two inputs, merge off, every call succeeding. -/
theorem claim1_pdf_output_arity_witness :
    (runPdf allOkEnv (baseReq ["a.docx", "b.xlsx"])).2 = .ok ["a.docx.pdf", "b.xlsx.pdf"] ∧
      ((baseReq ["a.docx", "b.xlsx"]).inputPaths ≠ [] ∧
        (((baseReq ["a.docx", "b.xlsx"]).merge = true ∧
            2 ≤ (baseReq ["a.docx", "b.xlsx"]).inputPaths.length) →
          (["a.docx.pdf", "b.xlsx.pdf"] : List String).length = 1) ∧
        (¬((baseReq ["a.docx", "b.xlsx"]).merge = true ∧
            2 ≤ (baseReq ["a.docx", "b.xlsx"]).inputPaths.length) →
          (["a.docx.pdf", "b.xlsx.pdf"] : List String).length =
              (baseReq ["a.docx", "b.xlsx"]).inputPaths.length ∧
            (2 ≤ (baseReq ["a.docx", "b.xlsx"]).inputPaths.length →
              ["a.docx.pdf", "b.xlsx.pdf"] =
                (baseReq ["a.docx", "b.xlsx"]).inputPaths.map (fun s => s ++ ".pdf")))) :=
  ⟨by decide,
   claim1_pdf_output_arity allOkEnv (baseReq ["a.docx", "b.xlsx"])
     ["a.docx.pdf", "b.xlsx.pdf"] (by decide)⟩

/-- C2: the merge engine is never invoked on a single-input request,
whatever the merge flag; and a merge call appears in a run's trace
exactly when merge was requested and the conversion stage completed with
at least two outputs (the current output set at the moment merge is
considered). -/
theorem claim2_merge_exactly_when (env : Env) (req : PdfRequest) :
    (req.inputPaths.length = 1 → ∀ e ∈ (runPdf env req).1, e.isMergeCall = false) ∧
      ((∃ e ∈ (runPdf env req).1, e.isMergeCall = true) ↔
        (req.merge = true ∧
          ∃ md outs1 n1, validateForm env req = .ok md ∧
            (convertLoop env req.options req.pdfFormats req.nativePageRanges
              req.inputPaths 0).2 = .ok (outs1, n1) ∧ 1 < outs1.length)) := by
  have hiff : (∃ e ∈ (runPdf env req).1, e.isMergeCall = true) ↔
      (req.merge = true ∧
        ∃ md outs1 n1, validateForm env req = .ok md ∧
          (convertLoop env req.options req.pdfFormats req.nativePageRanges
            req.inputPaths 0).2 = .ok (outs1, n1) ∧ 1 < outs1.length) := by
    constructor
    · rintro ⟨e, he, hmc⟩
      obtain ⟨md, hval, hdis⟩ := runPdf_mem he
      rcases hdis with h | ⟨p1, hconv, hdis⟩
      · obtain ⟨i, o, rfl⟩ := convertLoop_mem env req.options req.pdfFormats
          req.nativePageRanges req.inputPaths 0 e h
        simp [Event.isMergeCall] at hmc
      rcases hdis with h | ⟨p2, hmerge, hdis⟩
      · obtain ⟨rfl, hlen, hmg⟩ := mergeStage_mem h
        exact ⟨hmg, md, p1.1, p1.2, hval, hconv, hlen⟩
      rcases hdis with h | ⟨p3, hnorm, hdis⟩
      · obtain ⟨-, i, o, rfl⟩ := normalizeStage_mem h
        simp [Event.isMergeCall] at hmc
      rcases hdis with h | ⟨hmd, hdis⟩
      · obtain ⟨-, o, rfl⟩ := metadataStage_mem h
        simp [Event.isMergeCall] at hmc
      rcases hdis with h | ⟨outs4, hren, h⟩
      · obtain ⟨-, hrc⟩ := renameStage_mem h
        cases e <;> simp_all [Event.isMergeCall, Event.isRenameCall]
      · obtain rfl := addStage_mem h
        simp [Event.isMergeCall] at hmc
    · rintro ⟨hmg, md, outs1, n1, hval, hconv, hlen⟩
      obtain ⟨rest, htr⟩ := runPdf_trace_through_merge hval hconv
      dsimp only at htr
      refine ⟨.mergeCall outs1 (genPath n1 ".pdf"), ?_, rfl⟩
      rw [htr, mergeStage_fst_pos ⟨hlen, hmg⟩]
      simp
  refine ⟨?_, hiff⟩
  intro hone e he
  by_contra hmc
  rw [Bool.not_eq_false] at hmc
  obtain ⟨hmg, md, outs1, n1, hval, hconv, hlen⟩ := hiff.mp ⟨e, he, hmc⟩
  have := convertLoop_ok_len env req.options req.pdfFormats req.nativePageRanges
    req.inputPaths 0 outs1 n1 hconv
  omega

/-- Witness for C2: a two-input merge request does produce a merge
call; a single-input request with the merge flag set produces none. -/
theorem claim2_merge_exactly_when_witness :
    (∃ e ∈ (runPdf allOkEnv { baseReq ["a", "b"] with merge := true }).1,
        e.isMergeCall = true) ∧
      ∀ e ∈ (runPdf allOkEnv { baseReq ["a"] with merge := true }).1,
        e.isMergeCall = false :=
  ⟨(claim2_merge_exactly_when allOkEnv { baseReq ["a", "b"] with merge := true }).2.mpr
      ⟨by decide, [], ["alloc-0.pdf", "alloc-1.pdf"], 2, by decide, by decide, by decide⟩,
   (claim2_merge_exactly_when allOkEnv { baseReq ["a"] with merge := true }).1 (by decide)⟩

theorem convertLoop_head (env : Env) (opts : Options) (formats : PdfFormats)
    (ranges : String) (a : String) (rest : List String) (n : Nat) :
    Event.pdfCall a (genPath n ".pdf") opts ∈
      (convertLoop env opts formats ranges (a :: rest) n).1 := by
  cases henv : env.pdfResult a (genPath n ".pdf") opts <;>
    simp [convertLoop, henv]

/-- A natively-normalizing converter call in a run's trace forces
`nativePdfFormats` to be set (and a non-zero standard target). -/
theorem native_event_requires {env : Env} {req : PdfRequest} {e : Event}
    (he : e ∈ (runPdf env req).1) (hn : e.isNativeNormalizingPdfCall = true) :
    req.nativePdfFormats = true ∧ req.pdfFormats ≠ zeroValued := by
  obtain ⟨md, hval, hdis⟩ := runPdf_mem he
  rcases hdis with h | ⟨p1, hconv, hdis⟩
  · obtain ⟨i, o, rfl⟩ := convertLoop_mem env req.options req.pdfFormats
      req.nativePageRanges req.inputPaths 0 e h
    simp only [Event.isNativeNormalizingPdfCall, decide_eq_true_eq] at hn
    by_cases hnat : req.nativePdfFormats
    · refine ⟨hnat, ?_⟩
      simpa [PdfRequest.options, hnat] using hn
    · exact absurd (by simp [PdfRequest.options, hnat]) hn
  rcases hdis with h | ⟨p2, hmerge, hdis⟩
  · obtain ⟨rfl, -, -⟩ := mergeStage_mem h
    simp [Event.isNativeNormalizingPdfCall] at hn
  rcases hdis with h | ⟨p3, hnorm, hdis⟩
  · obtain ⟨-, i, o, rfl⟩ := normalizeStage_mem h
    simp [Event.isNativeNormalizingPdfCall] at hn
  rcases hdis with h | ⟨hmd, hdis⟩
  · obtain ⟨-, o, rfl⟩ := metadataStage_mem h
    simp [Event.isNativeNormalizingPdfCall] at hn
  rcases hdis with h | ⟨outs4, hren, h⟩
  · obtain ⟨-, hrc⟩ := renameStage_mem h
    cases e <;> simp_all [Event.isNativeNormalizingPdfCall, Event.isRenameCall]
  · obtain rfl := addStage_mem h
    simp [Event.isNativeNormalizingPdfCall] at hn

/-- An `engine.Convert` call in a run's trace forces `nativePdfFormats`
to be unset and a non-zero standard target. -/
theorem engine_event_requires {env : Env} {req : PdfRequest} {e : Event}
    (he : e ∈ (runPdf env req).1) (hn : e.isEngineConvertCall = true) :
    req.nativePdfFormats = false ∧ req.pdfFormats ≠ zeroValued := by
  obtain ⟨md, hval, hdis⟩ := runPdf_mem he
  rcases hdis with h | ⟨p1, hconv, hdis⟩
  · obtain ⟨i, o, rfl⟩ := convertLoop_mem env req.options req.pdfFormats
      req.nativePageRanges req.inputPaths 0 e h
    simp [Event.isEngineConvertCall] at hn
  rcases hdis with h | ⟨p2, hmerge, hdis⟩
  · obtain ⟨rfl, -, -⟩ := mergeStage_mem h
    simp [Event.isEngineConvertCall] at hn
  rcases hdis with h | ⟨p3, hnorm, hdis⟩
  · exact (normalizeStage_mem h).1
  rcases hdis with h | ⟨hmd, hdis⟩
  · obtain ⟨-, o, rfl⟩ := metadataStage_mem h
    simp [Event.isEngineConvertCall] at hn
  rcases hdis with h | ⟨outs4, hren, h⟩
  · obtain ⟨-, hrc⟩ := renameStage_mem h
    cases e <;> simp_all [Event.isEngineConvertCall, Event.isRenameCall]
  · obtain rfl := addStage_mem h
    simp [Event.isEngineConvertCall] at hn

/-- C3: in a single run, native normalization (a converter call whose
options embed a non-zero standard target) and post-merge normalization
(`engine.Convert`) never both occur; and on a successful run with a
non-empty standard target, at least one of the two occurs — with the
first conjunct, exactly one. -/
theorem claim3_normalization_exclusive (env : Env) (req : PdfRequest) :
    ¬((∃ e ∈ (runPdf env req).1, e.isNativeNormalizingPdfCall = true) ∧
        (∃ e ∈ (runPdf env req).1, e.isEngineConvertCall = true)) ∧
      (req.pdfFormats ≠ zeroValued → ∀ outs, (runPdf env req).2 = .ok outs →
        ((∃ e ∈ (runPdf env req).1, e.isNativeNormalizingPdfCall = true) ∨
          (∃ e ∈ (runPdf env req).1, e.isEngineConvertCall = true))) := by
  constructor
  · rintro ⟨⟨e1, he1, hn1⟩, ⟨e2, he2, hn2⟩⟩
    have h1 := (native_event_requires he1 hn1).1
    have h2 := (engine_event_requires he2 hn2).1
    rw [h1] at h2
    cases h2
  · intro hfz outs h
    obtain ⟨md, p1, p2, p3, hval, hconv, hmerge, hnorm, hmd, hren, hadd⟩ :=
      runPdf_ok_decomp h
    obtain ⟨outs1, n1⟩ := p1
    obtain ⟨outs2, n2⟩ := p2
    obtain ⟨outs3, n3⟩ := p3
    dsimp only at hconv hmerge hnorm hmd hren
    cases hnat : req.nativePdfFormats with
    | true =>
      left
      obtain ⟨a, rest, hcons⟩ :=
        List.exists_cons_of_ne_nil (validateForm_ok_ne_nil hval)
      obtain ⟨rst, htr⟩ := runPdf_trace_through_merge hval hconv
      refine ⟨.pdfCall a (genPath 0 ".pdf") req.options, ?_, ?_⟩
      · rw [htr]
        refine List.mem_append_left _ ?_
        rw [hcons]
        exact convertLoop_head env req.options req.pdfFormats req.nativePageRanges
          a rest 0
      · simp [Event.isNativeNormalizingPdfCall, PdfRequest.options, hnat, hfz]
    | false =>
      right
      have hlen1 : outs1.length = req.inputPaths.length :=
        convertLoop_ok_len env req.options req.pdfFormats req.nativePageRanges
          req.inputPaths 0 outs1 n1 hconv
      have hne1 : req.inputPaths ≠ [] := validateForm_ok_ne_nil hval
      have hpos : 0 < outs2.length := by
        rcases mergeStage_ok hmerge with ⟨-, houts2, -⟩ | ⟨-, houts2, -⟩
        · simp [houts2]
        · subst houts2
          have : req.inputPaths.length ≠ 0 := fun hz => hne1 (List.eq_nil_of_length_eq_zero hz)
          omega
      obtain ⟨q, qs, hq⟩ := List.exists_cons_of_ne_nil (List.ne_nil_of_length_pos hpos)
      have htr := runPdf_eq_of_stages hval hconv hmerge hnorm hmd hren
      obtain ⟨ev, hev, hkind⟩ := normalizeLoop_head env req.pdfFormats q qs n2
      refine ⟨ev, ?_, hkind⟩
      rw [htr]
      have hns : (normalizeStage env req.nativePdfFormats req.pdfFormats outs2 n2).1 =
          (normalizeLoop env req.pdfFormats outs2 n2).1 := by
        rw [normalizeStage_pos ⟨hnat, hfz⟩]
      simp only [List.mem_append]
      refine Or.inr (Or.inr (Or.inl ?_))
      rw [hns, hq]
      exact hev

/-- Witness for C3: with a PDF/A target and `nativePdfFormats` off, a
successful run contains an `engine.Convert` call (or a native call). -/
theorem claim3_normalization_exclusive_witness :
    (runPdf allOkEnv (normReq ["a"])).2 = .ok ["alloc-1.pdf"] ∧
      ((∃ e ∈ (runPdf allOkEnv (normReq ["a"])).1, e.isNativeNormalizingPdfCall = true) ∨
        (∃ e ∈ (runPdf allOkEnv (normReq ["a"])).1, e.isEngineConvertCall = true)) :=
  ⟨by decide,
   (claim3_normalization_exclusive allOkEnv (normReq ["a"])).2 (by decide)
     ["alloc-1.pdf"] (by decide)⟩

/-- In `l1 ++ l2`, if no `Q`-element lies in `l1` and no `P`-element in
`l2`, every `P`-position is strictly before every `Q`-position. -/
theorem ordered_of_append {α : Type} (P Q : α → Prop) (l1 l2 : List α)
    (h1 : ∀ e ∈ l1, ¬Q e) (h2 : ∀ e ∈ l2, ¬P e) :
    ∀ i j e1 e2, (l1 ++ l2).get? i = some e1 → (l1 ++ l2).get? j = some e2 →
      P e1 → Q e2 → i < j := by
  intro i j e1 e2 hi hj hp hq
  have hiL : i < l1.length := by
    by_contra hge
    push_neg at hge
    rw [List.get?_append_right hge] at hi
    exact h2 e1 (List.get?_mem hi) hp
  have hjR : l1.length ≤ j := by
    by_contra hlt
    push_neg at hlt
    rw [List.get?_append hlt] at hj
    exact h1 e2 (List.get?_mem hj) hq
  omega

theorem convertLoop_not_md (env : Env) (opts : Options) (formats : PdfFormats)
    (ranges : String) (inputs : List String) (n : Nat) :
    ∀ e ∈ (convertLoop env opts formats ranges inputs n).1,
      e.isWriteMetadataCall = false := by
  intro e h
  obtain ⟨i, o, rfl⟩ := convertLoop_mem env opts formats ranges inputs n e h
  rfl

theorem mergeStage_not_md {env : Env} {mg : Bool} {outs : List String} {n : Nat} :
    ∀ e ∈ (mergeStage env mg outs n).1, e.isWriteMetadataCall = false := by
  intro e h
  obtain ⟨rfl, -, -⟩ := mergeStage_mem h
  rfl

theorem normalizeStage_not_md {env : Env} {native : Bool} {formats : PdfFormats}
    {outs : List String} {n : Nat} :
    ∀ e ∈ (normalizeStage env native formats outs n).1,
      e.isWriteMetadataCall = false := by
  intro e h
  obtain ⟨-, i, o, rfl⟩ := normalizeStage_mem h
  rfl

theorem metadataStage_not_engine {env : Env} {md : Metadata} {outs : List String} :
    ∀ e ∈ (metadataStage env md outs).1, e.isEngineConvertCall = false := by
  intro e h
  obtain ⟨-, o, rfl⟩ := metadataStage_mem h
  rfl

theorem renameStage_not_engine {env : Env} {suffix : String} {ins outs : List String} :
    ∀ e ∈ (renameStage env suffix ins outs).1, e.isEngineConvertCall = false := by
  intro e h
  obtain ⟨-, hrc⟩ := renameStage_mem h
  cases e <;> simp_all [Event.isRenameCall, Event.isEngineConvertCall]

theorem addStage_not_engine {env : Env} {outs : List String} :
    ∀ e ∈ (addStage env outs).1, e.isEngineConvertCall = false := by
  intro e h
  obtain rfl := addStage_mem h
  rfl

/-- Every possible trace of a PDF run splits into a prefix with no
metadata-write call and a suffix with no `engine.Convert` call. -/
theorem runPdf_shape_norm_md (env : Env) (req : PdfRequest) :
    ∃ pre post, (runPdf env req).1 = pre ++ post ∧
      (∀ e ∈ pre, e.isWriteMetadataCall = false) ∧
      (∀ e ∈ post, e.isEngineConvertCall = false) := by
  cases hval : validateForm env req with
  | error he =>
    refine ⟨[], [], ?_, by simp, by simp⟩
    rw [runPdf_eq_of_validate_err hval]
    rfl
  | ok md =>
  cases hconv : (convertLoop env req.options req.pdfFormats req.nativePageRanges
      req.inputPaths 0).2 with
  | error he =>
    refine ⟨(convertLoop env req.options req.pdfFormats req.nativePageRanges
      req.inputPaths 0).1, [], ?_, ?_, by simp⟩
    · rw [runPdf_eq_of_convert_err hval hconv]
      simp
    · exact convertLoop_not_md env req.options req.pdfFormats req.nativePageRanges
        req.inputPaths 0
  | ok p1 =>
  cases hmerge : (mergeStage env req.merge p1.1 p1.2).2 with
  | error he =>
    refine ⟨(convertLoop env req.options req.pdfFormats req.nativePageRanges
        req.inputPaths 0).1 ++ (mergeStage env req.merge p1.1 p1.2).1,
      [], ?_, ?_, by simp⟩
    · rw [runPdf_eq_of_merge_err hval hconv hmerge]
      simp
    · intro e h
      rcases List.mem_append.1 h with h | h
      · exact convertLoop_not_md env req.options req.pdfFormats req.nativePageRanges
          req.inputPaths 0 e h
      · exact mergeStage_not_md e h
  | ok p2 =>
  cases hnorm : (normalizeStage env req.nativePdfFormats req.pdfFormats p2.1 p2.2).2 with
  | error he =>
    refine ⟨(convertLoop env req.options req.pdfFormats req.nativePageRanges
        req.inputPaths 0).1 ++
          ((mergeStage env req.merge p1.1 p1.2).1 ++
            (normalizeStage env req.nativePdfFormats req.pdfFormats p2.1 p2.2).1),
      [], ?_, ?_, by simp⟩
    · rw [runPdf_eq_of_norm_err hval hconv hmerge hnorm]
      simp
    · intro e h
      rcases List.mem_append.1 h with h | h
      · exact convertLoop_not_md env req.options req.pdfFormats req.nativePageRanges
          req.inputPaths 0 e h
      rcases List.mem_append.1 h with h | h
      · exact mergeStage_not_md e h
      · exact normalizeStage_not_md e h
  | ok p3 =>
  have hpre : ∀ e ∈ (convertLoop env req.options req.pdfFormats req.nativePageRanges
      req.inputPaths 0).1 ++
        ((mergeStage env req.merge p1.1 p1.2).1 ++
          (normalizeStage env req.nativePdfFormats req.pdfFormats p2.1 p2.2).1),
      e.isWriteMetadataCall = false := by
    intro e h
    rcases List.mem_append.1 h with h | h
    · exact convertLoop_not_md env req.options req.pdfFormats req.nativePageRanges
        req.inputPaths 0 e h
    rcases List.mem_append.1 h with h | h
    · exact mergeStage_not_md e h
    · exact normalizeStage_not_md e h
  cases hmd : (metadataStage env md p3.1).2 with
  | error he =>
    refine ⟨_, (metadataStage env md p3.1).1, ?_, hpre, metadataStage_not_engine⟩
    rw [runPdf_eq_of_md_err hval hconv hmerge hnorm hmd]
    simp [List.append_assoc]
  | ok u =>
  cases u
  cases hren : (renameStage env ".pdf" req.inputPaths p3.1).2 with
  | error he =>
    refine ⟨_, (metadataStage env md p3.1).1 ++
      (renameStage env ".pdf" req.inputPaths p3.1).1, ?_, hpre, ?_⟩
    · rw [runPdf_eq_of_rename_err hval hconv hmerge hnorm hmd hren]
      simp [List.append_assoc]
    · intro e h
      rcases List.mem_append.1 h with h | h
      · exact metadataStage_not_engine e h
      · exact renameStage_not_engine e h
  | ok outs4 =>
    refine ⟨_, (metadataStage env md p3.1).1 ++
      ((renameStage env ".pdf" req.inputPaths p3.1).1 ++ (addStage env outs4).1),
      ?_, hpre, ?_⟩
    · rw [runPdf_eq_of_stages hval hconv hmerge hnorm hmd hren]
      simp [List.append_assoc]
    · intro e h
      rcases List.mem_append.1 h with h | h
      · exact metadataStage_not_engine e h
      rcases List.mem_append.1 h with h | h
      · exact renameStage_not_engine e h
      · exact addStage_not_engine e h

/-- C4: in every PDF run, every `engine.Convert` (normalization) call
occurs strictly before every `engine.WriteMetadata` call in the trace;
equivalently, normalization is never invoked after metadata stamping. -/
theorem claim4_metadata_after_normalization (env : Env) (req : PdfRequest) :
    ∀ i j e1 e2, (runPdf env req).1.get? i = some e1 →
      (runPdf env req).1.get? j = some e2 →
      e1.isEngineConvertCall = true → e2.isWriteMetadataCall = true → i < j := by
  obtain ⟨pre, post, htr, hpre, hpost⟩ := runPdf_shape_norm_md env req
  intro i j e1 e2 hi hj h1 h2
  rw [htr] at hi hj
  exact ordered_of_append (fun e => e.isEngineConvertCall = true)
    (fun e => e.isWriteMetadataCall = true) pre post
    (fun e he hq => by
      have hq' : e.isWriteMetadataCall = true := hq
      rw [hpre e he] at hq'
      cases hq')
    (fun e he hp => by
      have hp' : e.isEngineConvertCall = true := hp
      rw [hpost e he] at hp'
      cases hp')
    i j e1 e2 hi hj h1 h2

/-- Witness for C4: a run with both normalization and metadata
stamping; its last normalization call precedes its first
metadata-write call. -/
theorem claim4_metadata_after_normalization_witness :
    (runPdf mdEnv mdNormReq).1.get? 3 =
        some (.engineConvertCall { pdfA := "PDF-A-1b", pdfUa := false }
          "alloc-1.pdf" "alloc-3.pdf") ∧
      (runPdf mdEnv mdNormReq).1.get? 4 =
        some (.writeMetadataCall [("Author", "x")] "alloc-2.pdf") ∧
      3 < 4 :=
  ⟨by decide, by decide,
   claim4_metadata_after_normalization mdEnv mdNormReq 3 4
     (.engineConvertCall { pdfA := "PDF-A-1b", pdfUa := false } "alloc-1.pdf" "alloc-3.pdf")
     (.writeMetadataCall [("Author", "x")] "alloc-2.pdf")
     (by decide) (by decide) (by decide) (by decide)⟩

theorem convertLoop_not_rename (env : Env) (opts : Options) (formats : PdfFormats)
    (ranges : String) (inputs : List String) (n : Nat) :
    ∀ e ∈ (convertLoop env opts formats ranges inputs n).1, e.isRenameCall = false := by
  intro e h
  obtain ⟨i, o, rfl⟩ := convertLoop_mem env opts formats ranges inputs n e h
  rfl

theorem mergeStage_not_rename {env : Env} {mg : Bool} {outs : List String} {n : Nat} :
    ∀ e ∈ (mergeStage env mg outs n).1, e.isRenameCall = false := by
  intro e h
  obtain ⟨rfl, -, -⟩ := mergeStage_mem h
  rfl

theorem normalizeStage_not_rename {env : Env} {native : Bool} {formats : PdfFormats}
    {outs : List String} {n : Nat} :
    ∀ e ∈ (normalizeStage env native formats outs n).1, e.isRenameCall = false := by
  intro e h
  obtain ⟨-, i, o, rfl⟩ := normalizeStage_mem h
  rfl

theorem metadataStage_not_rename {env : Env} {md : Metadata} {outs : List String} :
    ∀ e ∈ (metadataStage env md outs).1, e.isRenameCall = false := by
  intro e h
  obtain ⟨-, o, rfl⟩ := metadataStage_mem h
  rfl

theorem addStage_not_rename {env : Env} {outs : List String} :
    ∀ e ∈ (addStage env outs).1, e.isRenameCall = false := by
  intro e h
  obtain rfl := addStage_mem h
  rfl

/-- C5: on a successful PDF run, a single final output keeps the path
the allocator issued (it is an allocator-generated `.pdf` path and no
rename call occurs anywhere in the run), while several final outputs
are exactly the input names with `.pdf` appended, in input order. -/
theorem claim5_output_naming (env : Env) (req : PdfRequest) (outs : List String)
    (h : (runPdf env req).2 = .ok outs) :
    (outs.length = 1 →
      (∀ e ∈ (runPdf env req).1, e.isRenameCall = false) ∧
        ∃ k, outs = [genPath k ".pdf"]) ∧
      (1 < outs.length →
        outs = req.inputPaths.map (fun s => s ++ ".pdf") ∧
          outs.length = req.inputPaths.length) := by
  obtain ⟨md, p1, p2, p3, hval, hconv, hmerge, hnorm, hmd, hren, hadd⟩ := runPdf_ok_decomp h
  obtain ⟨outs1, n1⟩ := p1
  obtain ⟨outs2, n2⟩ := p2
  obtain ⟨outs3, n3⟩ := p3
  dsimp only at hconv hmerge hnorm hmd hren
  have htr := runPdf_eq_of_stages hval hconv hmerge hnorm hmd hren
  dsimp only at htr
  have hlen1 : outs1.length = req.inputPaths.length :=
    convertLoop_ok_len env req.options req.pdfFormats req.nativePageRanges
      req.inputPaths 0 outs1 n1 hconv
  have hlen32 : outs3.length = outs2.length := normalizeStage_ok_len hnorm
  have hforms1 : ∀ o ∈ outs1, ∃ k, o = genPath k ".pdf" :=
    convertLoop_ok_forms env req.options req.pdfFormats req.nativePageRanges
      req.inputPaths 0 outs1 n1 hconv
  have hforms2 : ∀ o ∈ outs2, ∃ k, o = genPath k ".pdf" := by
    rcases mergeStage_ok hmerge with ⟨-, houts2, -⟩ | ⟨-, houts2, -⟩
    · subst houts2
      intro o ho
      rw [List.mem_singleton] at ho
      exact ⟨n1, ho⟩
    · subst houts2
      exact hforms1
  have hforms3 : ∀ o ∈ outs3, ∃ k, o = genPath k ".pdf" :=
    normalizeStage_ok_forms hnorm hforms2
  have hnorename : ¬1 < outs3.length →
      ∀ e ∈ (runPdf env req).1, e.isRenameCall = false := by
    intro hle e he
    rw [htr] at he
    rcases List.mem_append.1 he with he | he
    · exact convertLoop_not_rename env req.options req.pdfFormats req.nativePageRanges
        req.inputPaths 0 e he
    rcases List.mem_append.1 he with he | he
    · exact mergeStage_not_rename e he
    rcases List.mem_append.1 he with he | he
    · exact normalizeStage_not_rename e he
    rcases List.mem_append.1 he with he | he
    · exact metadataStage_not_rename e he
    rcases List.mem_append.1 he with he | he
    · rw [renameStage_neg hle] at he
      simp at he
    · exact addStage_not_rename e he
  rcases mergeStage_ok hmerge with ⟨hc, houts2, -⟩ | ⟨hnc, houts2, -⟩
  · subst houts2
    have h31 : outs3.length = 1 := by simpa using hlen32
    have hle : ¬1 < outs3.length := by omega
    have hrenOrig := hren
    rw [renameStage_neg hle] at hren
    cases hren
    constructor
    · intro h1
      refine ⟨hnorename hle, ?_⟩
      obtain ⟨o, ho⟩ := List.length_eq_one.1 h31
      obtain ⟨k, hk⟩ := hforms3 o (by simp [ho])
      exact ⟨k, by rw [ho, hk]⟩
    · intro hgt
      omega
  · subst houts2
    have hlen3 : outs3.length = req.inputPaths.length := by omega
    by_cases hgt3 : 1 < outs3.length
    · have hrenOrig := hren
      rw [renameStage_pos hgt3] at hren
      have hmap := renameLoop_ok_map env ".pdf" req.inputPaths outs3 outs (by omega) hren
      subst hmap
      refine ⟨fun h1 => ?_, fun _ => ⟨rfl, by simp⟩⟩
      rw [List.length_map] at h1
      omega
    · have hrenOrig := hren
      rw [renameStage_neg hgt3] at hren
      cases hren
      refine ⟨fun h1 => ?_, fun hgt => absurd hgt hgt3⟩
      refine ⟨hnorename hgt3, ?_⟩
      obtain ⟨o, ho⟩ := List.length_eq_one.1 h1
      obtain ⟨k, hk⟩ := hforms3 o (by simp [ho])
      exact ⟨k, by rw [ho, hk]⟩

/-- Witness for C5: a single-input run keeps the allocator path; a
two-input run renames outputs to the input names plus `.pdf`. -/
theorem claim5_output_naming_witness :
    ((runPdf allOkEnv (baseReq ["c.odt"])).2 = .ok ["alloc-0.pdf"] ∧
      ((∀ e ∈ (runPdf allOkEnv (baseReq ["c.odt"])).1, e.isRenameCall = false) ∧
        ∃ k, ["alloc-0.pdf"] = [genPath k ".pdf"])) ∧
      ["x.docx.pdf", "y.xlsx.pdf"] =
        (baseReq ["x.docx", "y.xlsx"]).inputPaths.map (fun s => s ++ ".pdf") :=
  ⟨⟨by decide,
    (claim5_output_naming allOkEnv (baseReq ["c.odt"]) ["alloc-0.pdf"] (by decide)).1
      (by decide)⟩,
   (((claim5_output_naming allOkEnv (baseReq ["x.docx", "y.xlsx"])
      ["x.docx.pdf", "y.xlsx.pdf"] (by decide)).2 (by decide)).1)⟩

/-- C6: in each per-file stage of the PDF pipeline (conversion,
normalization, metadata), a failure on file k aborts the whole request:
the run returns an error, the trace stops at the failing call (files
k+1..N are never passed to that stage) and no later stage runs. -/
theorem claim6_per_file_abort (env : Env) (req : PdfRequest) :
    (∀ md k f e,
      validateForm env req = .ok md →
      req.inputPaths.get? k = some f →
      (∀ j g, j < k → req.inputPaths.get? j = some g →
        env.pdfResult g (genPath j ".pdf") req.options = .ok ()) →
      env.pdfResult f (genPath k ".pdf") req.options = .error e →
      runPdf env req =
        (convertTrace req.options (req.inputPaths.take (k + 1)) 0,
         .error (mapUnoError e req.pdfFormats req.nativePageRanges))) ∧
    (∀ md outs1 n1 outs2 n2 k f msg,
      validateForm env req = .ok md →
      (convertLoop env req.options req.pdfFormats req.nativePageRanges
        req.inputPaths 0).2 = .ok (outs1, n1) →
      (mergeStage env req.merge outs1 n1).2 = .ok (outs2, n2) →
      req.nativePdfFormats = false →
      req.pdfFormats ≠ zeroValued →
      outs2.get? k = some f →
      (∀ j g, j < k → outs2.get? j = some g →
        env.convertResult req.pdfFormats g (genPath (n2 + j) ".pdf") = .ok ()) →
      env.convertResult req.pdfFormats f (genPath (n2 + k) ".pdf") = .error msg →
      runPdf env req =
        ((convertLoop env req.options req.pdfFormats req.nativePageRanges
            req.inputPaths 0).1 ++
          ((mergeStage env req.merge outs1 n1).1 ++
            normalizeTrace req.pdfFormats (outs2.take (k + 1)) n2),
         .error .convertPdf)) ∧
    (∀ md outs1 n1 outs2 n2 outs3 n3 k f msg,
      validateForm env req = .ok md →
      0 < md.length →
      (convertLoop env req.options req.pdfFormats req.nativePageRanges
        req.inputPaths 0).2 = .ok (outs1, n1) →
      (mergeStage env req.merge outs1 n1).2 = .ok (outs2, n2) →
      (normalizeStage env req.nativePdfFormats req.pdfFormats outs2 n2).2 =
        .ok (outs3, n3) →
      outs3.get? k = some f →
      (∀ j g, j < k → outs3.get? j = some g →
        env.writeMetadataResult md g = .ok ()) →
      env.writeMetadataResult md f = .error msg →
      runPdf env req =
        ((convertLoop env req.options req.pdfFormats req.nativePageRanges
            req.inputPaths 0).1 ++
          ((mergeStage env req.merge outs1 n1).1 ++
            ((normalizeStage env req.nativePdfFormats req.pdfFormats outs2 n2).1 ++
              metadataTrace md (outs3.take (k + 1)))),
         .error .writeMetadata)) := by
  refine ⟨?_, ?_, ?_⟩
  · intro md k f e hval hget hpre hfail
    have hpre0 : ∀ j g, j < k → req.inputPaths.get? j = some g →
        env.pdfResult g (genPath (0 + j) ".pdf") req.options = .ok () := by
      intro j g hj hg
      rw [Nat.zero_add]
      exact hpre j g hj hg
    have hfail0 : env.pdfResult f (genPath (0 + k) ".pdf") req.options = .error e := by
      rw [Nat.zero_add]
      exact hfail
    have hcl := convertLoop_fail env req.options req.pdfFormats req.nativePageRanges
      k req.inputPaths 0 f e hget hpre0 hfail0
    have hconv2 : (convertLoop env req.options req.pdfFormats req.nativePageRanges
        req.inputPaths 0).2 = .error (mapUnoError e req.pdfFormats req.nativePageRanges) := by
      rw [hcl]
    rw [runPdf_eq_of_convert_err hval hconv2, hcl]
  · intro md outs1 n1 outs2 n2 k f msg hval hconv hmerge hnat hfz hget hpre hfail
    have hnl := normalizeLoop_fail env req.pdfFormats k outs2 n2 f msg hget hpre hfail
    have hns : normalizeStage env req.nativePdfFormats req.pdfFormats outs2 n2 =
        (normalizeTrace req.pdfFormats (outs2.take (k + 1)) n2, .error .convertPdf) := by
      rw [normalizeStage_pos ⟨hnat, hfz⟩, hnl]
    have hns2 : (normalizeStage env req.nativePdfFormats req.pdfFormats outs2 n2).2 =
        .error .convertPdf := by
      rw [hns]
    rw [runPdf_eq_of_norm_err hval hconv hmerge hns2, hns]
  · intro md outs1 n1 outs2 n2 outs3 n3 k f msg hval hmdlen hconv hmerge hnorm
      hget hpre hfail
    have hml := metadataLoop_fail env md k outs3 f msg hget hpre hfail
    have hms : metadataStage env md outs3 =
        (metadataTrace md (outs3.take (k + 1)), .error .writeMetadata) := by
      rw [metadataStage_pos hmdlen, hml]
    have hms2 : (metadataStage env md outs3).2 = .error .writeMetadata := by
      rw [hms]
    rw [runPdf_eq_of_md_err hval hconv hmerge hnorm hms2, hms]

/-- Witness for C6: a converter failure on the second of three inputs
stops the trace at that call; likewise for a normalization failure and
a metadata failure on the second of three current outputs. -/
theorem claim6_per_file_abort_witness :
    (runPdf failPdfOnB (baseReq ["a", "b", "c"]) =
      (convertTrace (baseReq ["a", "b", "c"]).options
        ((["a", "b", "c"] : List String).take 2) 0,
       .error (mapUnoError (.other "boom") (baseReq ["a", "b", "c"]).pdfFormats ""))) ∧
    (runPdf failNormOnSecond (normReq ["a", "b", "c"]) =
      ((convertLoop failNormOnSecond (normReq ["a", "b", "c"]).options
          (normReq ["a", "b", "c"]).pdfFormats
          (normReq ["a", "b", "c"]).nativePageRanges
          (normReq ["a", "b", "c"]).inputPaths 0).1 ++
        ((mergeStage failNormOnSecond (normReq ["a", "b", "c"]).merge
            ["alloc-0.pdf", "alloc-1.pdf", "alloc-2.pdf"] 3).1 ++
          normalizeTrace (normReq ["a", "b", "c"]).pdfFormats
            ((["alloc-0.pdf", "alloc-1.pdf", "alloc-2.pdf"] : List String).take 2) 3),
       .error .convertPdf)) ∧
    (runPdf failMdOnSecond (mdReq ["a", "b", "c"]) =
      ((convertLoop failMdOnSecond (mdReq ["a", "b", "c"]).options
          (mdReq ["a", "b", "c"]).pdfFormats
          (mdReq ["a", "b", "c"]).nativePageRanges
          (mdReq ["a", "b", "c"]).inputPaths 0).1 ++
        ((mergeStage failMdOnSecond (mdReq ["a", "b", "c"]).merge
            ["alloc-0.pdf", "alloc-1.pdf", "alloc-2.pdf"] 3).1 ++
          ((normalizeStage failMdOnSecond (mdReq ["a", "b", "c"]).nativePdfFormats
              (mdReq ["a", "b", "c"]).pdfFormats
              ["alloc-0.pdf", "alloc-1.pdf", "alloc-2.pdf"] 3).1 ++
            metadataTrace [("Author", "x")]
              ((["alloc-0.pdf", "alloc-1.pdf", "alloc-2.pdf"] : List String).take 2))),
       .error .writeMetadata)) :=
  ⟨(claim6_per_file_abort failPdfOnB (baseReq ["a", "b", "c"])).1
      [] 1 "b" (.other "boom") (by decide) (by decide)
      (by
        intro j g hj hg
        interval_cases j
        simp [baseReq] at hg
        subst hg
        decide)
      (by decide),
   (claim6_per_file_abort failNormOnSecond (normReq ["a", "b", "c"])).2.1
      [] ["alloc-0.pdf", "alloc-1.pdf", "alloc-2.pdf"] 3
      ["alloc-0.pdf", "alloc-1.pdf", "alloc-2.pdf"] 3 1 "alloc-1.pdf" "norm-fail"
      (by decide) (by decide) (by decide) (by decide) (by decide) (by decide)
      (by
        intro j g hj hg
        interval_cases j
        simp at hg
        subst hg
        decide)
      (by decide),
   (claim6_per_file_abort failMdOnSecond (mdReq ["a", "b", "c"])).2.2
      [("Author", "x")] ["alloc-0.pdf", "alloc-1.pdf", "alloc-2.pdf"] 3
      ["alloc-0.pdf", "alloc-1.pdf", "alloc-2.pdf"] 3
      ["alloc-0.pdf", "alloc-1.pdf", "alloc-2.pdf"] 3 1 "alloc-1.pdf" "md-fail"
      (by decide) (by decide) (by decide) (by decide) (by decide) (by decide)
      (by
        intro j g hj hg
        interval_cases j
        simp at hg
        subst hg
        decide)
      (by decide)⟩

/-- C7: a converter failure during the conversion stage is classified
exactly by its cause: `InvalidPdfFormats` becomes a bad request naming
the requested standard combination, `MalformedPageRanges` becomes a bad
request echoing the literal page-range value, and anything else becomes
the generic, non-client conversion failure. -/
theorem claim7_converter_error_classes (env : Env) (req : PdfRequest) :
    ∀ md k f e,
      validateForm env req = .ok md →
      req.inputPaths.get? k = some f →
      (∀ j g, j < k → req.inputPaths.get? j = some g →
        env.pdfResult g (genPath j ".pdf") req.options = .ok ()) →
      env.pdfResult f (genPath k ".pdf") req.options = .error e →
      ((runPdf env req).2 =
          .error (mapUnoError e req.pdfFormats req.nativePageRanges) ∧
        (e = .invalidPdfFormats →
          mapUnoError e req.pdfFormats req.nativePageRanges =
            .invalidPdfFormatsBadRequest req.pdfFormats) ∧
        (e = .malformedPageRanges →
          mapUnoError e req.pdfFormats req.nativePageRanges =
            .malformedPageRangesBadRequest req.nativePageRanges) ∧
        (∀ msg, e = .other msg →
          mapUnoError e req.pdfFormats req.nativePageRanges = .convertToPdf msg) ∧
        ((mapUnoError e req.pdfFormats req.nativePageRanges).isClientError = true ↔
          (e = .invalidPdfFormats ∨ e = .malformedPageRanges))) := by
  intro md k f e hval hget hpre hfail
  have hpre0 : ∀ j g, j < k → req.inputPaths.get? j = some g →
      env.pdfResult g (genPath (0 + j) ".pdf") req.options = .ok () := by
    intro j g hj hg
    rw [Nat.zero_add]
    exact hpre j g hj hg
  have hfail0 : env.pdfResult f (genPath (0 + k) ".pdf") req.options = .error e := by
    rw [Nat.zero_add]
    exact hfail
  have hcl := convertLoop_fail env req.options req.pdfFormats req.nativePageRanges
    k req.inputPaths 0 f e hget hpre0 hfail0
  have hconv2 : (convertLoop env req.options req.pdfFormats req.nativePageRanges
      req.inputPaths 0).2 = .error (mapUnoError e req.pdfFormats req.nativePageRanges) := by
    rw [hcl]
  refine ⟨by rw [runPdf_eq_of_convert_err hval hconv2], ?_, ?_, ?_, ?_⟩
  · rintro rfl
    rfl
  · rintro rfl
    rfl
  · rintro msg rfl
    rfl
  · cases e <;>
      simp [mapUnoError, HandlerError.isClientError, HandlerError.httpStatus]

/-- Witness for C7: each of the three causes surfaced on a concrete
single-input request. -/
theorem claim7_converter_error_classes_witness :
    ((runPdf invalidFmtEnv badFmtReq).2 =
        .error (.invalidPdfFormatsBadRequest { pdfA := "PDF-X", pdfUa := false }) ∧
      (HandlerError.invalidPdfFormatsBadRequest
        { pdfA := "PDF-X", pdfUa := false }).isClientError = true) ∧
    ((runPdf malformedEnv badRangeReq).2 =
        .error (.malformedPageRangesBadRequest "1-bad") ∧
      (HandlerError.malformedPageRangesBadRequest "1-bad").isClientError = true) ∧
    ((runPdf failPdfOnB (baseReq ["b"])).2 = .error (.convertToPdf "boom") ∧
      (HandlerError.convertToPdf "boom").isClientError = false) :=
  ⟨⟨(claim7_converter_error_classes invalidFmtEnv badFmtReq [] 0 "a" .invalidPdfFormats
      (by decide) (by decide)
      (by intro j g hj hg; exact absurd hj (by omega)) (by decide)).1,
    by decide⟩,
   ⟨(claim7_converter_error_classes malformedEnv badRangeReq [] 0 "a" .malformedPageRanges
      (by decide) (by decide)
      (by intro j g hj hg; exact absurd hj (by omega)) (by decide)).1,
    by decide⟩,
   ⟨(claim7_converter_error_classes failPdfOnB (baseReq ["b"]) [] 0 "b" (.other "boom")
      (by decide) (by decide)
      (by intro j g hj hg; exact absurd hj (by omega)) (by decide)).1,
    by decide⟩⟩

theorem docxLoop_mem (env : Env) :
    ∀ (inputs : List String) (n : Nat) (e : Event),
      e ∈ (docxLoop env inputs n).1 → ∃ i o, e = .docxCall i o := by
  intro inputs
  induction inputs with
  | nil => intro n e h; simp [docxLoop] at h
  | cons input rest ih =>
    intro n e h
    cases henv : env.docxResult input (genPath n ".docx") with
    | error e' =>
      simp only [docxLoop, henv, List.mem_singleton] at h
      exact ⟨input, genPath n ".docx", h⟩
    | ok u =>
      simp only [docxLoop, henv, List.mem_cons] at h
      rcases h with h | h
      · exact ⟨input, genPath n ".docx", h⟩
      · exact ih (n + 1) e h

theorem convertLoop_not_add (env : Env) (opts : Options) (formats : PdfFormats)
    (ranges : String) (inputs : List String) (n : Nat) :
    ∀ e ∈ (convertLoop env opts formats ranges inputs n).1,
      e.isAddOutputPathsCall = false := by
  intro e h
  obtain ⟨i, o, rfl⟩ := convertLoop_mem env opts formats ranges inputs n e h
  rfl

theorem mergeStage_not_add {env : Env} {mg : Bool} {outs : List String} {n : Nat} :
    ∀ e ∈ (mergeStage env mg outs n).1, e.isAddOutputPathsCall = false := by
  intro e h
  obtain ⟨rfl, -, -⟩ := mergeStage_mem h
  rfl

theorem normalizeStage_not_add {env : Env} {native : Bool} {formats : PdfFormats}
    {outs : List String} {n : Nat} :
    ∀ e ∈ (normalizeStage env native formats outs n).1,
      e.isAddOutputPathsCall = false := by
  intro e h
  obtain ⟨-, i, o, rfl⟩ := normalizeStage_mem h
  rfl

theorem metadataStage_not_add {env : Env} {md : Metadata} {outs : List String} :
    ∀ e ∈ (metadataStage env md outs).1, e.isAddOutputPathsCall = false := by
  intro e h
  obtain ⟨-, o, rfl⟩ := metadataStage_mem h
  rfl

theorem renameStage_not_add {env : Env} {suffix : String} {ins outs : List String} :
    ∀ e ∈ (renameStage env suffix ins outs).1, e.isAddOutputPathsCall = false := by
  intro e h
  obtain ⟨-, hrc⟩ := renameStage_mem h
  cases e <;> simp_all [Event.isRenameCall, Event.isAddOutputPathsCall]

theorem docxLoop_not_add (env : Env) (inputs : List String) (n : Nat) :
    ∀ e ∈ (docxLoop env inputs n).1, e.isAddOutputPathsCall = false := by
  intro e h
  obtain ⟨i, o, rfl⟩ := docxLoop_mem env inputs n e h
  rfl

/-- C8: in either pipeline, when there are several outputs and renaming
any single one fails, the whole request fails with the rename error and
nothing is handed to the response: the run returns no output list and
`ctx.AddOutputPaths` is never called, although all conversion work had
succeeded. -/
theorem claim8_rename_failure_aborts (env : Env) (req : PdfRequest)
    (inputs : List String) :
    (∀ md outs1 n1 outs2 n2 outs3 n3 k g o msg,
      validateForm env req = .ok md →
      (convertLoop env req.options req.pdfFormats req.nativePageRanges
        req.inputPaths 0).2 = .ok (outs1, n1) →
      (mergeStage env req.merge outs1 n1).2 = .ok (outs2, n2) →
      (normalizeStage env req.nativePdfFormats req.pdfFormats outs2 n2).2 =
        .ok (outs3, n3) →
      (metadataStage env md outs3).2 = .ok () →
      1 < outs3.length →
      req.inputPaths.get? k = some g →
      outs3.get? k = some o →
      (∀ j g' o', j < k → req.inputPaths.get? j = some g' → outs3.get? j = some o' →
        env.renameResult o' (g' ++ ".pdf") = .ok ()) →
      env.renameResult o (g ++ ".pdf") = .error msg →
      (runPdf env req).2 = .error .renameOutputPath ∧
        ∀ e ∈ (runPdf env req).1, e.isAddOutputPathsCall = false) ∧
    (∀ outs1 n1 k g o msg,
      inputs.isEmpty = false →
      (docxLoop env inputs 0).2 = .ok (outs1, n1) →
      1 < outs1.length →
      inputs.get? k = some g →
      outs1.get? k = some o →
      (∀ j g' o', j < k → inputs.get? j = some g' → outs1.get? j = some o' →
        env.renameResult o' (g' ++ ".docx") = .ok ()) →
      env.renameResult o (g ++ ".docx") = .error msg →
      (runDocx env inputs).2 = .error .renameOutputPath ∧
        ∀ e ∈ (runDocx env inputs).1, e.isAddOutputPathsCall = false) := by
  constructor
  · intro md outs1 n1 outs2 n2 outs3 n3 k g o msg hval hconv hmerge hnorm hmd
      hgt hgI hgO hpre hfail
    have hrl := renameLoop_fail env ".pdf" k req.inputPaths outs3 g o msg hgI hgO hpre hfail
    have hrs : renameStage env ".pdf" req.inputPaths outs3 =
        (renameTrace ".pdf" (req.inputPaths.take (k + 1)) (outs3.take (k + 1)),
         .error .renameOutputPath) := by
      rw [renameStage_pos hgt, hrl]
    have hrs2 : (renameStage env ".pdf" req.inputPaths outs3).2 =
        .error .renameOutputPath := by
      rw [hrs]
    have htr := runPdf_eq_of_rename_err hval hconv hmerge hnorm hmd hrs2
    refine ⟨by rw [htr], ?_⟩
    intro e he
    rw [htr] at he
    rcases List.mem_append.1 he with he | he
    · exact convertLoop_not_add env req.options req.pdfFormats req.nativePageRanges
        req.inputPaths 0 e he
    rcases List.mem_append.1 he with he | he
    · exact mergeStage_not_add e he
    rcases List.mem_append.1 he with he | he
    · exact normalizeStage_not_add e he
    rcases List.mem_append.1 he with he | he
    · exact metadataStage_not_add e he
    · exact renameStage_not_add e he
  · intro outs1 n1 k g o msg hne hconv hgt hgI hgO hpre hfail
    have hrl := renameLoop_fail env ".docx" k inputs outs1 g o msg hgI hgO hpre hfail
    have hrs : renameStage env ".docx" inputs outs1 =
        (renameTrace ".docx" (inputs.take (k + 1)) (outs1.take (k + 1)),
         .error .renameOutputPath) := by
      rw [renameStage_pos hgt, hrl]
    have hrs2 : (renameStage env ".docx" inputs outs1).2 = .error .renameOutputPath := by
      rw [hrs]
    have htr := runDocx_eq_of_rename_err hne hconv hrs2
    refine ⟨by rw [htr], ?_⟩
    intro e he
    rw [htr] at he
    rcases List.mem_append.1 he with he | he
    · exact docxLoop_not_add env inputs 0 e he
    · exact renameStage_not_add e he

/-- Witness for C8: rename of the second output failing in each
pipeline; the run errors and no add-output call appears. -/
theorem claim8_rename_failure_aborts_witness :
    ((runPdf failRenameOnSecond (baseReq ["a", "b"])).2 = .error .renameOutputPath ∧
      ∀ e ∈ (runPdf failRenameOnSecond (baseReq ["a", "b"])).1,
        e.isAddOutputPathsCall = false) ∧
    ((runDocx failRenameOnSecondDocx ["a", "b"]).2 = .error .renameOutputPath ∧
      ∀ e ∈ (runDocx failRenameOnSecondDocx ["a", "b"]).1,
        e.isAddOutputPathsCall = false) :=
  ⟨(claim8_rename_failure_aborts failRenameOnSecond (baseReq ["a", "b"]) []).1
      [] ["alloc-0.pdf", "alloc-1.pdf"] 2 ["alloc-0.pdf", "alloc-1.pdf"] 2
      ["alloc-0.pdf", "alloc-1.pdf"] 2 1 "b" "alloc-1.pdf" "re-fail"
      (by decide) (by decide) (by decide) (by decide) (by decide) (by decide)
      (by decide) (by decide)
      (by
        intro j g' o' hj hg' ho'
        interval_cases j
        simp [baseReq] at hg'
        simp at ho'
        subst hg'
        subst ho'
        decide)
      (by decide),
   (claim8_rename_failure_aborts failRenameOnSecondDocx (baseReq []) ["a", "b"]).2
      ["alloc-0.docx", "alloc-1.docx"] 2 1 "b" "alloc-1.docx" "re-fail"
      (by decide) (by decide) (by decide) (by decide) (by decide)
      (by
        intro j g' o' hj hg' ho'
        interval_cases j
        simp at hg' ho'
        subst hg'
        subst ho'
        decide)
      (by decide)⟩

/-- C9: in the DOCX pipeline every converter failure, whatever its
cause, aborts the request with the single generic (non-client,
HTTP 500) conversion error, stopping at the failing file; on success
there is one DOCX output per input, and with several outputs the same
naming rule applies with the `.docx` suffix. -/
theorem claim9_docx_pipeline (env : Env) (inputs : List String) :
    (∀ k f e,
      inputs.isEmpty = false →
      inputs.get? k = some f →
      (∀ j g, j < k → inputs.get? j = some g →
        env.docxResult g (genPath j ".docx") = .ok ()) →
      env.docxResult f (genPath k ".docx") = .error e →
      runDocx env inputs =
        (docxTrace (inputs.take (k + 1)) 0, .error .convertToDocx) ∧
        HandlerError.convertToDocx.isClientError = false ∧
        HandlerError.convertToDocx.httpStatus = some 500) ∧
    (∀ outs, (runDocx env inputs).2 = .ok outs →
      outs.length = inputs.length ∧
        (1 < outs.length → outs = inputs.map (fun s => s ++ ".docx"))) := by
  constructor
  · intro k f e hne hget hpre hfail
    have hpre0 : ∀ j g, j < k → inputs.get? j = some g →
        env.docxResult g (genPath (0 + j) ".docx") = .ok () := by
      intro j g hj hg
      rw [Nat.zero_add]
      exact hpre j g hj hg
    have hfail0 : env.docxResult f (genPath (0 + k) ".docx") = .error e := by
      rw [Nat.zero_add]
      exact hfail
    have hcl := docxLoop_fail env k inputs 0 f e hget hpre0 hfail0
    have hconv2 : (docxLoop env inputs 0).2 = .error .convertToDocx := by
      rw [hcl]
    refine ⟨?_, rfl, rfl⟩
    rw [runDocx_eq_of_docx_err hne hconv2, hcl]
  · intro outs h
    obtain ⟨hne, p1, hconv, hren, hadd⟩ := runDocx_ok_decomp h
    obtain ⟨outs1, n1⟩ := p1
    dsimp only at hconv hren
    have hlen1 : outs1.length = inputs.length := docxLoop_ok_len env inputs 0 outs1 n1 hconv
    rcases renameStage_ok hlen1.symm hren with ⟨hgt, rfl⟩ | ⟨hle, rfl⟩
    · exact ⟨by simp, fun _ => rfl⟩
    · exact ⟨hlen1, fun hgt => absurd hgt hle⟩

/-- Witness for C9: a failure on the second of three inputs stops the
DOCX loop there with the uniform error; a successful two-input run
yields two renamed outputs. -/
theorem claim9_docx_pipeline_witness :
    (runDocx failSecondDocx ["a", "b", "c"] =
      (docxTrace ((["a", "b", "c"] : List String).take 2) 0, .error .convertToDocx)) ∧
    ((runDocx allOkEnv ["a.hwp", "b.hwp"]).2 = .ok ["a.hwp.docx", "b.hwp.docx"] ∧
      ["a.hwp.docx", "b.hwp.docx"] =
        (["a.hwp", "b.hwp"] : List String).map (fun s => s ++ ".docx")) :=
  ⟨((claim9_docx_pipeline failSecondDocx ["a", "b", "c"]).1 1 "b" (.other "boom")
      (by decide) (by decide)
      (by
        intro j g hj hg
        interval_cases j
        simp at hg
        subst hg
        decide)
      (by decide)).1,
   ⟨by decide,
    ((claim9_docx_pipeline allOkEnv ["a.hwp", "b.hwp"]).2
      ["a.hwp.docx", "b.hwp.docx"] (by decide)).2 (by decide)⟩⟩

/-- C10: a present, non-empty `metadata` form field that fails to
unmarshal makes the whole request fail during form validation: the run
returns the validation error with an empty trace, so no converter call
is made and no output is produced. -/
theorem claim10_invalid_metadata_rejected (env : Env) (req : PdfRequest) (msg : String)
    (hraw : 0 < req.metadataRaw.length)
    (hjson : env.unmarshalMetadata req.metadataRaw = .error msg) :
    runPdf env req = ([], .error .validateFormData) := by
  have hval : validateForm env req = .error .validateFormData := by
    unfold validateForm
    by_cases hnil : req.inputPaths.isEmpty
    · rw [if_pos hnil]
    · rw [if_neg hnil, if_pos hraw, hjson]
  exact runPdf_eq_of_validate_err hval

/-- Witness for C10: a malformed metadata field on a one-input request
yields the validation error and an empty trace. -/
theorem claim10_invalid_metadata_rejected_witness :
    0 < ({ baseReq ["a"] with metadataRaw := "not-json" } : PdfRequest).metadataRaw.length ∧
      runPdf badJsonEnv { baseReq ["a"] with metadataRaw := "not-json" } =
        ([], .error .validateFormData) :=
  ⟨by decide,
   claim10_invalid_metadata_rejected badJsonEnv
     { baseReq ["a"] with metadataRaw := "not-json" } "invalid character"
     (by decide) (by decide)⟩

end Routes
